import Mathlib

/-!
# fts5_expose: configuration-string scanner, dequoter and token accumulator

A shallow embedding of `src/fts5_expose.c`.

Conventions of the embedding:

* a byte (`char`) is a `Nat` in `0..255`;
* a `const char *` into a NUL-terminated buffer is the list of the bytes from the
  pointer up to, not including, the terminating NUL of the buffer: `*p` is the head of
  the list (the terminator `0` when the list is empty), `p++` is the tail, and
  `p - q` is `q.length - p.length`;
* a scan function returns a `Cursor`: a pointer, the null pointer, or `overrun` when
  the C code has dereferenced a pointer that lies past the terminator;
* allocation (`sqlite3_malloc64`) is taken to succeed.
-/

namespace Fts5Expose

/-! ## Bytes and pointers -/

/-- The bytes of an ASCII string literal, used to write examples. -/
def bytes (s : String) : List Nat := s.toList.map Char.toNat

/-- The read `*p` of a pointer into a NUL-terminated buffer. -/
def deref (p : List Nat) : Nat := p.headD 0

/-- The content of a C string holds no NUL byte. -/
def NulFree (z : List Nat) : Prop := ∀ b ∈ z, b ≠ 0

instance (z : List Nat) : Decidable (NulFree z) := by
  unfold NulFree; infer_instance

/-- Result of a scan function. -/
inductive Cursor where
  /-- The scan returned a pointer into the buffer. -/
  | ptr (p : List Nat)
  /-- The scan returned the null pointer. -/
  | null
  /-- The scan read a byte beyond the terminating NUL of the buffer. -/
  | overrun
  deriving DecidableEq, Repr

/-! ## Whitespace and barewords (lines 26-80) -/

/-- `fts5_iswhitespace`: only the space character. -/
def fts5_iswhitespace (x : Nat) : Bool := x == 32

/-- `fts5ConfigSkipWhitespace` on a non-null pointer: `while (fts5_iswhitespace(*p)) p++`. -/
def fts5ConfigSkipWhitespace : List Nat → List Nat
  | [] => []
  | b :: rest => if fts5_iswhitespace b then fts5ConfigSkipWhitespace rest else b :: rest

/-- The table `aBareword[128]` of `sqlite3Fts5IsBareword`. -/
def aBareword : List Nat :=
  [ 0, 0, 0, 0, 0, 0, 0, 0, 0, 0, 0, 0, 0, 0, 0, 0,
    0, 0, 0, 0, 0, 0, 0, 0, 0, 0, 1, 0, 0, 0, 0, 0,
    0, 0, 0, 0, 0, 0, 0, 0, 0, 0, 0, 0, 0, 0, 0, 0,
    1, 1, 1, 1, 1, 1, 1, 1, 1, 1, 0, 0, 0, 0, 0, 0,
    0, 1, 1, 1, 1, 1, 1, 1, 1, 1, 1, 1, 1, 1, 1, 1,
    1, 1, 1, 1, 1, 1, 1, 1, 1, 1, 1, 0, 0, 0, 0, 1,
    0, 1, 1, 1, 1, 1, 1, 1, 1, 1, 1, 1, 1, 1, 1, 1,
    1, 1, 1, 1, 1, 1, 1, 1, 1, 1, 1, 0, 0, 0, 0, 0 ]

/-- `sqlite3Fts5IsBareword`: `(t & 0x80) || aBareword[(int)t]`. -/
def sqlite3Fts5IsBareword (t : Nat) : Bool :=
  (t &&& 0x80 != 0) || (aBareword.getD t 0 != 0)

/-- The loop `while (sqlite3Fts5IsBareword(*p)) p++` of `fts5ConfigSkipBareword`. -/
def barewordRun : List Nat → List Nat
  | [] => []
  | b :: rest => if sqlite3Fts5IsBareword b then barewordRun rest else b :: rest

/-- `fts5ConfigSkipBareword`: the pointer after the run, or null when `p == pIn`. -/
def fts5ConfigSkipBareword (pIn : List Nat) : Cursor :=
  let p := barewordRun pIn
  if p.length = pIn.length then Cursor.null else Cursor.ptr p

/-! ## Literals (lines 82-151) -/

/-- `fts5_isdigit`. -/
def fts5_isdigit (a : Nat) : Bool := decide (48 ≤ a ∧ a ≤ 57)

/-- The loop `while (fts5_isdigit(*p)) p++`. -/
def digitRun : List Nat → List Nat
  | [] => []
  | b :: rest => if fts5_isdigit b then digitRun rest else b :: rest

/-- The hex-digit loop of the blob branch (lines 101-104). -/
def hexRun : List Nat → List Nat
  | [] => []
  | b :: rest =>
    if (97 ≤ b ∧ b ≤ 102) ∨ (65 ≤ b ∧ b ≤ 70) ∨ (48 ≤ b ∧ b ≤ 57) then hexRun rest
    else b :: rest

/-- ASCII lower-casing, as done by the comparison of `sqlite3_strnicmp`. -/
def asciiLower (b : Nat) : Nat := if 65 ≤ b ∧ b ≤ 90 then b + 32 else b

/-- Modelled from the spec: `sqlite3_strnicmp("null", p, 4) == 0`, a function of the
SQLite library that is not part of this file; the spec describes the test as the
case-insensitive `NULL` keyword, exactly 4 bytes, no trailing check beyond length. -/
def isNullKeyword (p : List Nat) : Bool :=
  (p.take 4).map asciiLower == [110, 117, 108, 108]

/-- The loop of the single-quoted branch (lines 117-126), entered with `p` just after
the opening quote:
```
while (p) {
  if (*p == '\'') { p++; if (*p != '\'') break; }
  p++;
  if (*p == 0) p = 0;
}
```
When `*p` is the terminator at the top of the loop, `p++` leaves the string and the
following `*p` reads past the terminator. -/
def quotedRun : List Nat → Cursor
  | [] => Cursor.overrun
  | b :: rest =>
    if b = 39 then
      match rest with
      | [] => Cursor.ptr []
      | c :: rest2 =>
        if c ≠ 39 then Cursor.ptr (c :: rest2)
        else if deref rest2 = 0 then Cursor.null
        else quotedRun rest2
    else if deref rest = 0 then Cursor.null
    else quotedRun rest

/-- `fts5ConfigSkipLiteral`. -/
def fts5ConfigSkipLiteral (pIn : List Nat) : Cursor :=
  if deref pIn = 110 ∨ deref pIn = 78 then
    if isNullKeyword pIn then Cursor.ptr (pIn.drop 4) else Cursor.null
  else if deref pIn = 120 ∨ deref pIn = 88 then
    let p := pIn.tail
    if deref p = 39 then
      let p := hexRun p.tail
      if deref p = 39 ∧ (pIn.length - p.length) % 2 = 0 then Cursor.ptr p.tail
      else Cursor.null
    else Cursor.null
  else if deref pIn = 39 then
    quotedRun pIn.tail
  else
    let p := if deref pIn = 43 ∨ deref pIn = 45 then pIn.tail else pIn
    let p := digitRun p
    let p := if deref p = 46 ∧ fts5_isdigit (deref p.tail) then digitRun (p.drop 2) else p
    if p.length = pIn.length then Cursor.null else Cursor.ptr p

/-! ## Dequoting (lines 166-220) -/

/-- The loop of `fts5Dequote` (lines 177-193). The argument is `z[iIn..]`, the result
is the sequence of bytes the loop stores at `z[iOut]`, `z[iOut+1]`, ... in order.
`iOut < iIn` holds throughout (initially `0 < 1`, and each round adds 1 to `iOut` and
1 or 2 to `iIn`), so a store never changes a byte that is still to be read; the loop on
the buffer itself is `fts5DequoteInPlace`, and `fts5Dequote_in_place` relates the two. -/
def fts5DequoteLoop (q : Nat) : List Nat → List Nat
  | [] => []
  | b :: rest =>
    if b = 0 then []
    else if b = q then
      match rest with
      | [] => []
      | c :: rest2 => if c ≠ q then [] else q :: fts5DequoteLoop q rest2
    else b :: fts5DequoteLoop q rest

/-- `fts5Dequote`: the C string left at `z` (the stored bytes, then the terminator
written by `z[iOut] = 0`). The returned offset `iIn` is dropped: the only caller,
`sqlite3Fts5Dequote`, discards it. The `assert` on `z[0]` is the guard of the caller. -/
def fts5Dequote (z : List Nat) : List Nat :=
  let q := if deref z = 91 then 93 else deref z
  fts5DequoteLoop q z.tail

/-- The loop of `fts5Dequote` on the buffer itself (lines 177-193), one round per unit
of fuel: the buffer `z`, `iIn` and `iOut` when the loop is left. -/
def fts5DequoteInPlace (q : Nat) : Nat → List Nat → Nat → Nat → List Nat × Nat × Nat
  | 0, z, iIn, iOut => (z, iIn, iOut)
  | fuel + 1, z, iIn, iOut =>
    if z.getD iIn 0 = 0 then (z, iIn, iOut)
    else if z.getD iIn 0 = q then
      if z.getD (iIn + 1) 0 ≠ q then (z, iIn + 1, iOut)
      else fts5DequoteInPlace q fuel (z.set iOut q) (iIn + 2) (iOut + 1)
    else fts5DequoteInPlace q fuel (z.set iOut (z.getD iIn 0)) (iIn + 1) (iOut + 1)

/-- `fts5Dequote` on the buffer itself: the buffer after `z[iOut] = 0`, and the
returned offset `iIn`. The loop runs at most once per byte of the buffer. -/
def fts5DequoteBuffer (z : List Nat) : List Nat × Nat :=
  let q := if z.getD 0 0 = 91 then 93 else z.getD 0 0
  let r := fts5DequoteInPlace q z.length z 1 0
  (r.1.set r.2.2 0, r.2.1)

/-- The C string that starts a buffer: the bytes before the first NUL. -/
def cString (z : List Nat) : List Nat := z.takeWhile (fun b => b != 0)

/-- The test `quote == '[' || quote == '\'' || quote == '"' || quote == backtick`. -/
def isOpenQuote (quote : Nat) : Bool :=
  quote == 91 || quote == 39 || quote == 34 || quote == 96

/-- `sqlite3Fts5Dequote`: the C string at `z` after the call. The
`assert(0 == fts5_iswhitespace(z[0]))` states a precondition and changes nothing. -/
def sqlite3Fts5Dequote (z : List Nat) : List Nat :=
  if isOpenQuote (deref z) then fts5Dequote z else z

/-! ## The parse loop of `createTokenizer` (lines 331-364) -/

/-- One argument of the list: the span `[p2, p)` copied by `memcpy` to `pSpace`, and
the C string `azArg[nArg]` that `sqlite3Fts5Dequote(pSpace)` leaves there (the scratch
buffer is zero-filled, so the copy is followed by a terminator). -/
structure Argument where
  /-- The scanned span. -/
  span : List Nat
  /-- The dequoted text. -/
  text : List Nat
  deriving DecidableEq, Repr

/-- Outcome of the parse block. -/
inductive ParseResult where
  /-- The loop ended with `p` non-null: `rc` stays `SQLITE_OK`. -/
  | ok (nArg : Nat) (azArg : List Argument)
  /-- The loop ended with `p == 0`: "parse error in tokenize directive", `SQLITE_ERROR`. -/
  | parseError
  /-- The literal scan read past the terminator of the configuration string. -/
  | overrun
  deriving DecidableEq, Repr

/-- Lines 344-348: a literal scan when `*p2` is a single quote, else a bareword scan. -/
def scanArgument (p2 : List Nat) : Cursor :=
  if deref p2 = 39 then fts5ConfigSkipLiteral p2 else fts5ConfigSkipBareword p2

/-- The `for` loop of lines 341-357, one round per unit of fuel; `none` when the fuel
is used up before the loop ends. On a failed scan `p` is null, the loop condition
`p && *p` ends the loop and line 359 reports the parse error. -/
def parseLoop : Nat → List Nat → Nat → List Argument → Option ParseResult
  | 0, _, _, _ => none
  | fuel + 1, p, nArg, azArg =>
    if deref p = 0 then some (ParseResult.ok nArg azArg)
    else
      let p2 := fts5ConfigSkipWhitespace p
      match scanArgument p2 with
      | Cursor.null => some ParseResult.parseError
      | Cursor.overrun => some ParseResult.overrun
      | Cursor.ptr q =>
        let span := p2.take (p2.length - q.length)
        parseLoop fuel (fts5ConfigSkipWhitespace q) (nArg + 1)
          (azArg ++ [Argument.mk span (sqlite3Fts5Dequote span)])

/-- The parse block of `createTokenizer` (lines 320-364) for a non-null `fts5ApiPtr`:
with `tokenizeParam == NULL` the block is skipped and `nArg` stays 0; else the loop
runs from the start of the string with `nArg = 0`. Every round that continues moves
`p` forward, so `strlen(tokenizeParam) + 1` rounds are enough. -/
def parseConfig (tokenizeParam : Option (List Nat)) : Option ParseResult :=
  match tokenizeParam with
  | none => some (ParseResult.ok 0 [])
  | some z => parseLoop (z.length + 1) z 0 []

/-- The texts `azArg[0..nArg)` handed to the tokenizer constructor. -/
def argTexts (azArg : List Argument) : List (List Nat) := azArg.map Argument.text

/-! ## The token list (lines 9, 241-314) -/

/-- The constant `MAX_TOKENS`. -/
def MAX_TOKENS : Nat := 256

/-- `struct Token`, a node of the singly linked list: `pToken` may be `NULL`, and
`pNext` is `NULL` exactly in the last node. -/
inductive Token where
  /-- A node with `pNext == NULL`. -/
  | last (pToken : Option (List Nat))
  /-- A node with a successor. -/
  | node (pToken : Option (List Nat)) (pNext : Token)
  deriving DecidableEq, Repr

/-- The field `pToken` of a node. -/
def Token.pToken : Token → Option (List Nat)
  | Token.last t => t
  | Token.node t _ => t

/-- `createToken`: a zeroed node (`pToken == NULL`, `pNext == NULL`). -/
def createToken : Token := Token.last none

/-- `sqlite3_strdup(src, n)`: a fresh buffer holding the first `n` bytes of `src`
(followed by a terminator). -/
def sqlite3_strdup (src : List Nat) (n : Nat) : List Nat := src.take n

/-- The assignment `firstToken->pToken = tokenStr` (line 302). -/
def Token.setPToken (tokenStr : List Nat) : Token → Token
  | Token.last _ => Token.last (some tokenStr)
  | Token.node _ nxt => Token.node (some tokenStr) nxt

/-- Lines 304-310: a new node holding `tokenStr` is linked behind the node that
`getLastToken` finds by following `pNext` to the end. -/
def appendToken (tokenStr : List Nat) : Token → Token
  | Token.last t => Token.node t (Token.last (some tokenStr))
  | Token.node t nxt => Token.node t (appendToken tokenStr nxt)

/-- `fts5TokenCallback`: the list after the call; the return value is always
`SQLITE_OK`. -/
def fts5TokenCallback (firstToken : Token) (pToken : List Nat) (nToken : Nat) : Token :=
  let tokenStr := sqlite3_strdup pToken nToken
  match firstToken.pToken with
  | none => firstToken.setPToken tokenStr
  | some _ => appendToken tokenStr firstToken

/-- The run of `xTokenize` as far as this file sees it: the tokenizer calls
`fts5TokenCallback` once per emitted token `(pToken, nToken)`, in order. -/
def deliverTokens (firstToken : Token) (emitted : List (List Nat × Nat)) : Token :=
  emitted.foldl (fun first t => fts5TokenCallback first t.1 t.2) firstToken

/-- The body `if (currentToken->pToken != NULL) tokens[tokenIndex] = ...` (line 426). -/
def storeToken (tokens : List (Option (List Nat))) (tokenIndex : Nat) :
    Option (List Nat) → List (Option (List Nat))
  | none => tokens
  | some s => tokens.set tokenIndex (some s)

/-- The collection loop (lines 425-434): the array `tokens` and `tokenIndex` when the
loop is left, by `break` at the last node or by `tokenIndex < MAX_TOKENS` failing. -/
def collectLoop : Token → List (Option (List Nat)) → Nat → List (Option (List Nat)) × Nat
  | Token.last t, tokens, tokenIndex =>
    if tokenIndex < MAX_TOKENS then (storeToken tokens tokenIndex t, tokenIndex)
    else (tokens, tokenIndex)
  | Token.node t nxt, tokens, tokenIndex =>
    if tokenIndex < MAX_TOKENS then collectLoop nxt (storeToken tokens tokenIndex t) (tokenIndex + 1)
    else (tokens, tokenIndex)

/-- The array `tokens[MAX_TOKENS]` and the count `tokenCount` of lines 421-437. -/
structure Collected where
  /-- The array, `MAX_TOKENS` entries, `none` for `NULL`. -/
  tokens : List (Option (List Nat))
  /-- The value `tokenIndex + 1`. -/
  tokenCount : Nat
  deriving DecidableEq, Repr

/-- Lines 421-437. -/
def collectTokens (firstToken : Token) : Collected :=
  let r := collectLoop firstToken (List.replicate MAX_TOKENS none) 0
  Collected.mk r.1 (r.2 + 1)

/-- The values read by the bind loop (lines 457-461), `tokens[i]` for
`i < tokenCount`: `some e` for an entry of the array, `none` for an index outside it. -/
def boundEntries (c : Collected) : List (Option (Option (List Nat))) :=
  (List.range c.tokenCount).map (fun i => c.tokens[i]?)

/-- Feeding the emitted tokens to a fresh list and collecting them. -/
def accumulate (emitted : List (List Nat × Nat)) : Collected :=
  collectTokens (deliverTokens createToken emitted)

/-! ## The driver (lines 316-490)

The tokenizer registry and the tokenizers are external: they are parameters of the
model. The statement that builds the JSON array (`sqlite3_prepare_v2`,
`sqlite3_bind_text`, `sqlite3_step`) is taken to succeed. -/

/-- An `sqlite3_value` as seen through `sqlite3_value_text`: `none` for SQL NULL (the
call returns a null pointer), else the text. -/
abbrev SqlValue := Option (List Nat)

/-- `sqlite3_value_bytes`. -/
def sqlite3_value_bytes (v : SqlValue) : Nat :=
  match v with
  | none => 0
  | some z => z.length

/-- A constructed tokenizer (`Fts5Tokenizer *` with its `xTokenize`): for an input
`(zIn, nIn)`, the tokens it emits through the callback, in order, each as
`(pToken, nToken)`. -/
structure Fts5Tokenizer where
  /-- The emitted tokens. -/
  xTokenize : SqlValue → Nat → List (List Nat × Nat)

/-- A tokenizer module (`fts5_tokenizer`): `xCreate(NULL, azArg, nArg, &pTokenizer)`
gives a tokenizer, or `none` when it returns an error code. -/
structure fts5_tokenizer where
  /-- The constructor. -/
  xCreate : List (List Nat) → Nat → Option Fts5Tokenizer

/-- The registry (`fts5_api`): `xFindTokenizer` gives the module registered under a
name, or `none` when it returns an error code. -/
structure fts5_api where
  /-- The lookup. -/
  xFindTokenizer : Option (List Nat) → Option fts5_tokenizer

/-- A call into the registry or a tokenizer. -/
inductive ApiCall where
  /-- The call `xFindTokenizer(fts5ApiPtr, tokenizerName, ...)`. -/
  | xFindTokenizer (tokenizerName : Option (List Nat))
  /-- The call `xCreate(NULL, azArg, nArg, ...)`. -/
  | xCreate (azArg : List (List Nat)) (nArg : Nat)
  /-- The call `xTokenize(pTokenizer, firstToken, FTS5_TOKENIZE_AUX, zIn, nIn, ...)`. -/
  | xTokenize (zIn : SqlValue) (nIn : Nat)
  /-- The call `xDelete(pTokenizer)`. -/
  | xDelete
  deriving DecidableEq, Repr

/-- The error messages of the file. -/
inductive ErrMsg where
  /-- The text "Invalid amount of arguments". -/
  | invalidArguments
  /-- The text "Could not find FTS5 API". -/
  | noApi
  /-- The text "parse error in tokenize directive". -/
  | parseError
  /-- The text "could not create tokenizer with params '%s'" with `tokenizeParam`. -/
  | couldNotCreate (tokenizeParam : Option (List Nat))
  /-- The text "could not find tokenizer %s" with `tokenizerName`. -/
  | couldNotFind (tokenizerName : Option (List Nat))
  /-- The text "Fatal error". -/
  | fatal
  deriving DecidableEq, Repr

/-- The message text, or its format string. -/
def ErrMsg.format : ErrMsg → String
  | ErrMsg.invalidArguments => "Invalid amount of arguments"
  | ErrMsg.noApi => "Could not find FTS5 API"
  | ErrMsg.parseError => "parse error in tokenize directive"
  | ErrMsg.couldNotCreate _ => "could not create tokenizer with params '%s'"
  | ErrMsg.couldNotFind _ => "could not find tokenizer %s"
  | ErrMsg.fatal => "Fatal error"

/-- Outcome of `createTokenizer`. -/
inductive Created where
  /-- The parse read past the terminator of `tokenizeParam`. -/
  | overrun
  /-- The function returned: whether `rc == SQLITE_OK`, the message in `*pzErr`, the
  calls made, and `config->pTokenizer`. -/
  | done (rcOk : Bool) (zErr : Option ErrMsg) (calls : List ApiCall)
      (pTokenizer : Option Fts5Tokenizer)

/-- The calls made by `createTokenizer`. -/
def Created.calls : Created → List ApiCall
  | Created.overrun => []
  | Created.done _ _ calls _ => calls

/-- `createTokenizer` (lines 316-386). -/
def createTokenizer (fts5ApiPtr : Option fts5_api)
    (tokenizerName tokenizeParam : Option (List Nat)) : Option Created :=
  match fts5ApiPtr with
  | none => some (Created.done false (some ErrMsg.noApi) [] none)
  | some api =>
    match parseConfig tokenizeParam with
    | none => none
    | some ParseResult.overrun => some Created.overrun
    | some ParseResult.parseError =>
      some (Created.done false (some ErrMsg.parseError) [] none)
    | some (ParseResult.ok nArg azArg) =>
      match api.xFindTokenizer tokenizerName with
      | none =>
        some (Created.done false (some (ErrMsg.couldNotFind tokenizerName))
          [ApiCall.xFindTokenizer tokenizerName] none)
      | some tokenizer =>
        match tokenizer.xCreate (argTexts azArg) nArg with
        | none =>
          some (Created.done false (some (ErrMsg.couldNotCreate tokenizeParam))
            [ApiCall.xFindTokenizer tokenizerName, ApiCall.xCreate (argTexts azArg) nArg]
            none)
        | some pTokenizer =>
          some (Created.done true none
            [ApiCall.xFindTokenizer tokenizerName, ApiCall.xCreate (argTexts azArg) nArg]
            (some pTokenizer))

/-- Lines 397-398: `(argc > 1) ? sqlite3_value_text(argv[0]) : "unicode61"`. -/
def tokenizerNameOf (argv : List SqlValue) : Option (List Nat) :=
  if argv.length > 1 then argv.getD 0 none else some (bytes "unicode61")

/-- Lines 400-401: `(argc > 2) ? sqlite3_value_text(argv[1]) : NULL`. -/
def tokenizerParamOf (argv : List SqlValue) : Option (List Nat) :=
  if argv.length > 2 then argv.getD 1 none else none

/-- Line 413: `argv[argc - 1]`; `none` when the index is outside `argv` (`argc == 0`). -/
def inputValueOf (argv : List SqlValue) : Option SqlValue :=
  if argv.length = 0 then none else argv[argv.length - 1]?

/-- A call that sets the result of the SQL function. The calls are recorded in order:
a later call sets the value anew, and an error that was set stays an error of the
call, whose value is then what the last call has set. -/
inductive ResultCall where
  /-- The call `sqlite3_result_error(context, msg, -1)`. -/
  | error (msg : ErrMsg)
  /-- Line 452: the result is set to the text "SELECT json_array(?,...,?);" with
  `tokenCount` parameters. -/
  | sqlText (tokenCount : Nat)
  /-- Lines 466-468: the result is set to the JSON array of the bound values. -/
  | jsonArray (entries : List (Option (Option (List Nat))))
  deriving DecidableEq, Repr

/-- Outcome of `tokenizeSqlFunc`. -/
inductive Ran where
  /-- The run read outside a string or an array; what follows is not determined. -/
  | undefined
  /-- The function returned, after these result calls and these calls to the tokenizer
  interface. -/
  | done (results : List ResultCall) (calls : List ApiCall)
  deriving DecidableEq, Repr

/-- `tokenizeSqlFunc` (lines 388-490); `argc` is the length of `argv`, and
`fts5ApiPtr` is what `fts5_api_from_db` returns. The check of `argc` sets an error
result and does not return. The statement "SELECT json_array(?,...,?);" is taken to
prepare, bind and step to a row (lines 454-472), as it does while `tokenCount` is within
the number of arguments that the host allows a function; where the host refuses it, the
code ends with the error "Fatal error" instead of the array. -/
def tokenizeSqlFunc (fts5ApiPtr : Option fts5_api) (argv : List SqlValue) : Option Ran :=
  let early : List ResultCall :=
    if argv.length > 3 ∨ argv.length < 1 then [ResultCall.error ErrMsg.invalidArguments]
    else []
  match createTokenizer fts5ApiPtr (tokenizerNameOf argv) (tokenizerParamOf argv) with
  | none => none
  | some Created.overrun => some Ran.undefined
  | some (Created.done false zErr calls _) =>
    some (Ran.done (early ++ [ResultCall.error (zErr.getD ErrMsg.fatal)]) calls)
  | some (Created.done true _ calls pTokenizer) =>
    match pTokenizer, inputValueOf argv with
    | some tokenizer, some zIn =>
      let nIn := sqlite3_value_bytes zIn
      let c := accumulate (tokenizer.xTokenize zIn nIn)
      some (Ran.done
        (early ++ [ResultCall.sqlText c.tokenCount, ResultCall.jsonArray (boundEntries c)])
        (calls ++ [ApiCall.xTokenize zIn nIn, ApiCall.xDelete]))
    | _, _ => some Ran.undefined

/-! ## Reference notions used to state the properties -/

/-- The close character of an open-quote character: `]` for `[`, else the same. -/
def closeQuote (o : Nat) : Nat := if o = 91 then 93 else o

/-- The string `t` with every occurrence of `c` doubled. -/
def doubleEach (c : Nat) : List Nat → List Nat
  | [] => []
  | b :: t => if b = c then c :: c :: doubleEach c t else b :: doubleEach c t

/-- The quoted form of `t`: open quote, `t` with the close character doubled, close. -/
def quoteWith (o : Nat) (t : List Nat) : List Nat :=
  o :: (doubleEach (closeQuote o) t ++ [closeQuote o])

/-- One argument of a well-formed configuration string: its value `w`, whether it is
written as a single-quoted SQL literal or as itself, and the number of spaces that
follow it. -/
structure Rendering where
  /-- The argument value. -/
  w : List Nat
  /-- Written as a single-quoted literal. -/
  quoted : Bool
  /-- Number of spaces (0x20) after the argument. -/
  sep : Nat
  deriving DecidableEq, Repr

/-- The text of one argument. -/
def renderArg (r : Rendering) : List Nat :=
  if r.quoted then quoteWith 39 r.w else r.w

/-- The arguments in order, each followed by its spaces. -/
def renderArgs : List Rendering → List Nat
  | [] => []
  | r :: rs => renderArg r ++ (List.replicate r.sep 32 ++ renderArgs rs)

/-- Well-formedness of a list of renderings: every value is NUL-free, an unquoted
value is a non-empty run of bareword bytes, and every argument but the last is
followed by at least one space. -/
def WellRendered : List Rendering → Prop
  | [] => True
  | r :: rs =>
    NulFree r.w ∧
    (r.quoted = false → r.w ≠ [] ∧ ∀ b ∈ r.w, sqlite3Fts5IsBareword b = true) ∧
    (rs ≠ [] → 1 ≤ r.sep) ∧ WellRendered rs

instance instDecidableWellRendered : ∀ rs : List Rendering, Decidable (WellRendered rs)
  | [] => isTrue trivial
  | r :: rs =>
    have : Decidable (WellRendered rs) := instDecidableWellRendered rs
    (inferInstance : Decidable (NulFree r.w ∧
      (r.quoted = false → r.w ≠ [] ∧ ∀ b ∈ r.w, sqlite3Fts5IsBareword b = true) ∧
      (rs ≠ [] → 1 ≤ r.sep) ∧ WellRendered rs))

/-- The argument the parse loop is expected to produce for a rendering. -/
def expectedArg (r : Rendering) : Argument := Argument.mk (renderArg r) r.w

/-- A hex digit: `0-9`, `a-f`, `A-F`. -/
def isHexDigit (b : Nat) : Bool :=
  decide ((48 ≤ b ∧ b ≤ 57) ∨ (97 ≤ b ∧ b ≤ 102) ∨ (65 ≤ b ∧ b ≤ 70))

/-- A tokenizer for the examples: it emits the whole input as one token, and no token
for an empty or NULL input. -/
def wholeInputTokenizer : Fts5Tokenizer :=
  Fts5Tokenizer.mk (fun zIn nIn =>
    match zIn with
    | none => []
    | some z => if nIn = 0 then [] else [(z, nIn)])

/-- A registry for the examples: every name is found and every construction succeeds,
giving `wholeInputTokenizer`. -/
def wholeInputApi : fts5_api :=
  fts5_api.mk (fun _ => some (fts5_tokenizer.mk (fun _ _ => some wholeInputTokenizer)))

/-- The cursor at the end of the numeric branch of `fts5ConfigSkipLiteral` (lines
131-143), before the test `p == pIn`. -/
def numberRun (pIn : List Nat) : List Nat :=
  let p := if deref pIn = 43 ∨ deref pIn = 45 then pIn.tail else pIn
  let p := digitRun p
  if deref p = 46 ∧ fts5_isdigit (deref p.tail) then digitRun (p.drop 2) else p

/-- A literal scanner that recognises only single-quoted strings: the single-quoted
branch of `fts5ConfigSkipLiteral`, and the null cursor on every other first byte. -/
def skipQuotedOnly (pIn : List Nat) : Cursor :=
  if deref pIn = 39 then quotedRun pIn.tail else Cursor.null

/-- The scan of one argument with `skipQuotedOnly` in the place of
`fts5ConfigSkipLiteral`. -/
def scanArgumentQuotedOnly (p2 : List Nat) : Cursor :=
  if deref p2 = 39 then skipQuotedOnly p2 else fts5ConfigSkipBareword p2

/-- The parse loop with `skipQuotedOnly` in the place of `fts5ConfigSkipLiteral`. -/
def parseLoopQuotedOnly : Nat → List Nat → Nat → List Argument → Option ParseResult
  | 0, _, _, _ => none
  | fuel + 1, p, nArg, azArg =>
    if deref p = 0 then some (ParseResult.ok nArg azArg)
    else
      let p2 := fts5ConfigSkipWhitespace p
      match scanArgumentQuotedOnly p2 with
      | Cursor.null => some ParseResult.parseError
      | Cursor.overrun => some ParseResult.overrun
      | Cursor.ptr q =>
        let span := p2.take (p2.length - q.length)
        parseLoopQuotedOnly fuel (fts5ConfigSkipWhitespace q) (nArg + 1)
          (azArg ++ [Argument.mk span (sqlite3Fts5Dequote span)])

/-- The parse block with `skipQuotedOnly` in the place of `fts5ConfigSkipLiteral`. -/
def parseConfigQuotedOnly (tokenizeParam : Option (List Nat)) : Option ParseResult :=
  match tokenizeParam with
  | none => some (ParseResult.ok 0 [])
  | some z => parseLoopQuotedOnly (z.length + 1) z 0 []

/-- `strlen`: the number of bytes before the first NUL of the buffer. -/
def strlen (z : List Nat) : Nat := (cString z).length

/-- The writes of one round of the parse loop (lines 351-354): `memcpy` copies `nCopy`
bytes, `p - p2`, to the offset `pSpace` of the scratch buffer `pDel`, where a
terminator follows them, and `azArg[nArg]` is set. -/
structure ArgWrite where
  /-- The index written in `azArg`. -/
  nArg : Nat
  /-- The offset `pSpace - pDel`. -/
  pSpace : Nat
  /-- The number of bytes copied, `p - p2`. -/
  nCopy : Nat
  deriving DecidableEq, Repr

/-- The writes made by the parse loop, round by round, in the order they are made; the
loop is that of `parseLoop`, and `pSpace` advances by `(p - p2) + 1` per round. -/
def parseWrites : Nat → List Nat → Nat → Nat → List ArgWrite
  | 0, _, _, _ => []
  | fuel + 1, p, nArg, pSpace =>
    if deref p = 0 then []
    else
      let p2 := fts5ConfigSkipWhitespace p
      match scanArgument p2 with
      | Cursor.ptr q =>
        ArgWrite.mk nArg pSpace (p2.length - q.length) ::
          parseWrites fuel (fts5ConfigSkipWhitespace q) (nArg + 1)
            (pSpace + (p2.length - q.length) + 1)
      | _ => []

/-- The writes made by the parse of the configuration string in the buffer `z`. -/
def configWrites (z : List Nat) : List ArgWrite := parseWrites (z.length + 1) z 0 0

/-- A write stays inside the two allocations of lines 334-337 for a string of length
`L`: `azArg` has `L + 1` entries and `pDel` has `2 * (L + 1)` bytes. -/
def ArgWrite.inBounds (L : Nat) (w : ArgWrite) : Bool :=
  decide (w.nArg < L + 1) && decide (w.pSpace + w.nCopy + 1 ≤ 2 * (L + 1))

/-- The length of the run of digits that starts a string. -/
def digitCount (l : List Nat) : Nat := (l.takeWhile fts5_isdigit).length

/-- The number of bytes of a numeric literal at the start of a string: an optional sign
`+` or `-`, a run of digits, and, when a point and a digit follow, the point, that digit
and the digits after it. -/
def numericLength (pIn : List Nat) : Nat :=
  let s := if deref pIn = 43 ∨ deref pIn = 45 then 1 else 0
  let d := digitCount (pIn.drop s)
  let rest := pIn.drop (s + d)
  let f := if deref rest = 46 ∧ fts5_isdigit (deref rest.tail) then 2 + digitCount (rest.drop 2)
    else 0
  s + d + f

/-- The linked list whose nodes hold the strings `s`, then those of `r`, in order. -/
def tokenChain (s : List Nat) : List (List Nat) → Token
  | [] => Token.last (some s)
  | s2 :: r => Token.node (some s) (tokenChain s2 r)

/-! ## Worked examples -/

example : sqlite3Fts5Dequote (bytes "'a''b'") = bytes "a'b" := by decide
example : sqlite3Fts5Dequote (bytes "[a]") = bytes "a" := by decide
example : sqlite3Fts5Dequote (bytes "abc") = bytes "abc" := by decide
example : quoteWith 39 (bytes "a'b") = bytes "'a''b'" := by decide
example : fts5ConfigSkipLiteral (bytes "'ab' c") = Cursor.ptr (bytes " c") := by decide
example : fts5ConfigSkipLiteral (bytes "'ab") = Cursor.null := by decide
example : fts5ConfigSkipLiteral (bytes "'") = Cursor.overrun := by decide
example : fts5ConfigSkipLiteral (bytes "x'ab'") = Cursor.ptr [] := by decide
example : fts5ConfigSkipLiteral (bytes "x'a'") = Cursor.null := by decide
example : fts5ConfigSkipLiteral (bytes "-1.5e") = Cursor.ptr (bytes "e") := by decide
example : fts5ConfigSkipLiteral (bytes "NuLl") = Cursor.ptr [] := by decide
example : parseConfig (some (bytes "porter ascii")) =
    some (ParseResult.ok 2 [⟨bytes "porter", bytes "porter"⟩, ⟨bytes "ascii", bytes "ascii"⟩]) := by
  decide
example : (parseConfig (some (bytes "unicode61 'remove_diacritics' '2'"))).map
    (fun r => match r with | ParseResult.ok n a => some (n, argTexts a) | _ => none) =
    some (some (3, [bytes "unicode61", bytes "remove_diacritics", bytes "2"])) := by
  decide
example : parseConfig (some (bytes "bad 'unterminated")) = some ParseResult.parseError := by decide
example : parseConfig (some (bytes "bad'quote")) = some ParseResult.parseError := by decide
example : parseConfig (some (bytes "bad '")) = some ParseResult.overrun := by decide
example : parseConfig (some (bytes "  ")) = some ParseResult.parseError := by decide
set_option maxRecDepth 4000 in
example : boundEntries (accumulate [(bytes "hello", 5), (bytes "world!", 5)]) =
    [some (some (bytes "hello")), some (some (bytes "world"))] := by decide
example : (accumulate [(bytes "hello", 5), (bytes "world!", 5)]).tokenCount = 2 := by decide
example : (accumulate []).tokenCount = 1 := by decide
example : cString (fts5DequoteBuffer (bytes "'a''b'" ++ [0, 0, 0])).1 = bytes "a'b" := by decide
example : fts5DequoteBuffer (bytes "'a''b'" ++ [0, 0, 0]) = (bytes "a'b" ++ [0, 98, 39, 0, 0, 0], 6) := by
  decide
/-! ## Lemmas on the scan functions -/

theorem bareword_byte {b : Nat} (h : sqlite3Fts5IsBareword b = true) :
    b ≠ 0 ∧ b ≠ 32 ∧ b ≠ 39 ∧ isOpenQuote b = false := by
  refine ⟨?_, ?_, ?_, ?_⟩
  · rintro rfl; revert h; decide
  · rintro rfl; revert h; decide
  · rintro rfl; revert h; decide
  · cases hq : isOpenQuote b
    · rfl
    · simp only [isOpenQuote, Bool.or_eq_true, beq_iff_eq] at hq
      rcases hq with ((rfl | rfl) | rfl) | rfl <;> revert h <;> decide

theorem skipWhitespace_of_not_space {p : List Nat} (h : deref p ≠ 32) :
    fts5ConfigSkipWhitespace p = p := by
  cases p with
  | nil => rfl
  | cons b rest =>
    have hb : b ≠ 32 := h
    simp [fts5ConfigSkipWhitespace, fts5_iswhitespace, hb]

theorem skipWhitespace_spaces (k : Nat) (p : List Nat) :
    fts5ConfigSkipWhitespace (List.replicate k 32 ++ p) = fts5ConfigSkipWhitespace p := by
  induction k with
  | zero => simp
  | succ k ih =>
    simp [List.replicate_succ, fts5ConfigSkipWhitespace, fts5_iswhitespace, ih]

theorem barewordRun_append (w rest : List Nat)
    (hw : ∀ b ∈ w, sqlite3Fts5IsBareword b = true)
    (hr : sqlite3Fts5IsBareword (deref rest) = false) :
    barewordRun (w ++ rest) = rest := by
  induction w with
  | nil =>
    cases rest with
    | nil => rfl
    | cons c r =>
      have hc : sqlite3Fts5IsBareword c = false := hr
      simp [barewordRun, hc]
  | cons b w ih =>
    have hb : sqlite3Fts5IsBareword b = true := hw b (by simp)
    have hw2 : ∀ x ∈ w, sqlite3Fts5IsBareword x = true := fun x hx => hw x (by simp [hx])
    simp [barewordRun, hb, ih hw2]

theorem dequoteLoop_cons_other (q b : Nat) (rest : List Nat) (h0 : b ≠ 0) (hq : b ≠ q) :
    fts5DequoteLoop q (b :: rest) = b :: fts5DequoteLoop q rest := by
  cases rest <;> simp [fts5DequoteLoop, h0, hq]

theorem dequoteLoop_doubleEach (c : Nat) (hc : c ≠ 0) (t : List Nat) (ht : NulFree t) :
    fts5DequoteLoop c (doubleEach c t ++ [c]) = t := by
  induction t with
  | nil => simp [doubleEach, fts5DequoteLoop, hc]
  | cons b t ih =>
    have hb : b ≠ 0 := ht b (by simp)
    have ht2 : NulFree t := fun x hx => ht x (by simp [hx])
    by_cases h : b = c
    · subst h
      simp [doubleEach, fts5DequoteLoop, hb, ih ht2]
    · simp [doubleEach, h, dequoteLoop_cons_other c b _ hb h, ih ht2]

theorem dequote_quoteWith (o : Nat) (ho : o = 91 ∨ o = 39 ∨ o = 34 ∨ o = 96)
    (t : List Nat) (ht : NulFree t) : sqlite3Fts5Dequote (quoteWith o t) = t := by
  rcases ho with rfl | rfl | rfl | rfl <;>
    simp [sqlite3Fts5Dequote, quoteWith, isOpenQuote, deref, fts5Dequote, closeQuote,
      dequoteLoop_doubleEach _ _ t ht]


theorem quotedRun_close (rest : List Nat) (h : deref rest ≠ 39) :
    quotedRun (39 :: rest) = Cursor.ptr rest := by
  cases rest with
  | nil => simp [quotedRun]
  | cons c r =>
    have hc : c ≠ 39 := h
    simp [quotedRun, hc]

theorem quotedRun_escaped (rest : List Nat) (h : deref rest ≠ 0) :
    quotedRun (39 :: 39 :: rest) = quotedRun rest := by
  simp [quotedRun, h]

theorem quotedRun_escaped_end (rest : List Nat) (h : deref rest = 0) :
    quotedRun (39 :: 39 :: rest) = Cursor.null := by
  simp [quotedRun, h]

theorem quotedRun_other (b : Nat) (rest : List Nat) (hb : b ≠ 39) (h : deref rest ≠ 0) :
    quotedRun (b :: rest) = quotedRun rest := by
  cases rest <;> simp_all [quotedRun, deref]

theorem quotedRun_other_end (b : Nat) (rest : List Nat) (hb : b ≠ 39) (h : deref rest = 0) :
    quotedRun (b :: rest) = Cursor.null := by
  cases rest <;> simp_all [quotedRun, deref]

theorem deref_doubleEach_append (t rest : List Nat) (ht : NulFree t) :
    deref (doubleEach 39 t ++ 39 :: rest) ≠ 0 := by
  cases t with
  | nil => simp [doubleEach, deref]
  | cons b t =>
    have hb : b ≠ 0 := ht b (by simp)
    by_cases h : b = 39
    · simp [doubleEach, h, deref]
    · simp [doubleEach, h, deref, hb]

theorem quotedRun_doubleEach (t rest : List Nat) (ht : NulFree t) (hr : deref rest ≠ 39) :
    quotedRun (doubleEach 39 t ++ 39 :: rest) = Cursor.ptr rest := by
  induction t with
  | nil => simpa [doubleEach] using quotedRun_close rest hr
  | cons b t ih =>
    have ht2 : NulFree t := fun x hx => ht x (by simp [hx])
    have hne := deref_doubleEach_append t rest ht2
    by_cases h : b = 39
    · subst h
      simp only [doubleEach, if_true, List.cons_append]
      rw [quotedRun_escaped _ hne]
      exact ih ht2
    · simp only [doubleEach, h, if_false, List.cons_append]
      rw [quotedRun_other b _ h hne]
      exact ih ht2

theorem skipLiteral_quote (rest : List Nat) :
    fts5ConfigSkipLiteral (39 :: rest) = quotedRun rest := by
  simp [fts5ConfigSkipLiteral, deref]

/-- The scan of one rendered argument stops right after it, when what follows does not
start with a bareword byte nor, after a quoted argument, with a quote. -/
theorem scanArgument_renderArg_before (r : Rendering) (rest : List Nat)
    (hn : NulFree r.w)
    (hb : r.quoted = false → r.w ≠ [] ∧ ∀ b ∈ r.w, sqlite3Fts5IsBareword b = true)
    (hrbw : sqlite3Fts5IsBareword (deref rest) = false)
    (hrq : r.quoted = true → deref rest ≠ 39) :
    scanArgument (renderArg r ++ rest) = Cursor.ptr rest ∧
    deref (renderArg r ++ rest) ≠ 32 ∧ deref (renderArg r ++ rest) ≠ 0 ∧
    renderArg r ≠ [] ∧ sqlite3Fts5Dequote (renderArg r) = r.w := by
  cases hq : r.quoted with
  | true =>
    have hr39 : deref rest ≠ 39 := hrq hq
    have hra : renderArg r = 39 :: (doubleEach 39 r.w ++ [39]) := by
      simp [renderArg, hq, quoteWith, closeQuote]
    refine ⟨?_, ?_, ?_, ?_, ?_⟩
    · rw [hra]
      simp only [scanArgument, List.cons_append, deref, List.headD_cons, if_true,
        skipLiteral_quote, List.append_assoc, List.singleton_append]
      exact quotedRun_doubleEach r.w rest hn hr39
    · rw [hra]; simp [deref]
    · rw [hra]; simp [deref]
    · rw [hra]; simp
    · simpa [renderArg, hq] using dequote_quoteWith 39 (by simp) r.w hn
  | false =>
    obtain ⟨hne, hall⟩ := hb hq
    have hra : renderArg r = r.w := by simp [renderArg, hq]
    obtain ⟨b, w, hw⟩ := List.exists_cons_of_ne_nil hne
    have hbb : sqlite3Fts5IsBareword b = true := hall b (by simp [hw])
    obtain ⟨h0, h32, h39, hoq⟩ := bareword_byte hbb
    refine ⟨?_, ?_, ?_, ?_, ?_⟩
    · rw [hra]
      have hd : deref (r.w ++ rest) ≠ 39 := by simpa [hw, deref] using h39
      simp only [scanArgument, hd, if_false, fts5ConfigSkipBareword,
        barewordRun_append r.w rest hall hrbw]
      have hlen : rest.length ≠ (r.w ++ rest).length := by
        simp only [hw, List.length_append, List.length_cons]; omega
      simp only [hlen, if_false]
    · rw [hra]; simpa [hw, deref] using h32
    · rw [hra]; simpa [hw, deref] using h0
    · rw [hra]; exact hne
    · rw [hra]; simp [sqlite3Fts5Dequote, hw, deref, hoq]


/-- The scan of one rendered argument stops right after it, when a space or the end of
the string follows. -/
theorem scanArgument_renderArg (r : Rendering) (rest : List Nat)
    (hn : NulFree r.w)
    (hb : r.quoted = false → r.w ≠ [] ∧ ∀ b ∈ r.w, sqlite3Fts5IsBareword b = true)
    (hrest : deref rest = 32 ∨ deref rest = 0) :
    scanArgument (renderArg r ++ rest) = Cursor.ptr rest ∧
    deref (renderArg r ++ rest) ≠ 32 ∧ deref (renderArg r ++ rest) ≠ 0 ∧
    renderArg r ≠ [] ∧ sqlite3Fts5Dequote (renderArg r) = r.w := by
  have hr39 : deref rest ≠ 39 := by rcases hrest with h | h <;> rw [h] <;> decide
  have hrbw : sqlite3Fts5IsBareword (deref rest) = false := by
    rcases hrest with h | h <;> rw [h] <;> decide
  exact scanArgument_renderArg_before r rest hn hb hrbw (fun _ => hr39)

theorem deref_append_of_ne_nil {a : List Nat} (rest : List Nat) (h : a ≠ []) :
    deref (a ++ rest) = deref a := by
  cases a with
  | nil => exact absurd rfl h
  | cons b a => rfl

theorem deref_renderArgs (rs : List Rendering) (h : WellRendered rs) :
    deref (renderArgs rs) ≠ 32 := by
  cases rs with
  | nil => simp [renderArgs, deref]
  | cons r rs =>
    obtain ⟨hn, hb, -, -⟩ := h
    obtain ⟨-, h32, -, hne, -⟩ := scanArgument_renderArg r [] hn hb (Or.inr rfl)
    rw [List.append_nil] at h32
    simp only [renderArgs]
    rw [deref_append_of_ne_nil _ hne]
    exact h32

theorem length_le_renderArgs (rs : List Rendering) (h : WellRendered rs) :
    rs.length ≤ (renderArgs rs).length := by
  induction rs with
  | nil => simp
  | cons r rs ih =>
    obtain ⟨hn, hb, -, hrs⟩ := h
    obtain ⟨-, -, -, hne, -⟩ := scanArgument_renderArg r [] hn hb (Or.inr rfl)
    have hpos : 0 < (renderArg r).length := List.length_pos.mpr hne
    have := ih hrs
    simp only [renderArgs, List.length_cons, List.length_append, List.length_replicate]
    omega

/-- One round of the parse loop on a well-formed configuration string: the first
rendered argument is scanned, dequoted and appended. -/
theorem parseLoop_rendered_step (fuel lead : Nat) (r : Rendering) (rs : List Rendering)
    (n : Nat) (acc : List Argument) (h : WellRendered (r :: rs)) :
    parseLoop (fuel + 1) (List.replicate lead 32 ++ renderArgs (r :: rs)) n acc =
      parseLoop fuel (renderArgs rs) (n + 1) (acc ++ [expectedArg r]) := by
  obtain ⟨hn, hb, hsep, hrs⟩ := h
  have hR : deref (List.replicate r.sep 32 ++ renderArgs rs) = 32 ∨
      deref (List.replicate r.sep 32 ++ renderArgs rs) = 0 := by
    cases hk : r.sep with
    | zero =>
      have hnil : rs = [] := by
        by_contra hne
        have := hsep hne
        omega
      simp [hnil, renderArgs, deref]
    | succ k => simp [List.replicate_succ, deref]
  obtain ⟨hscan, h32, h0, hne, hdq⟩ :=
    scanArgument_renderArg r (List.replicate r.sep 32 ++ renderArgs rs) hn hb hR
  have hp0 : deref (List.replicate lead 32 ++
      (renderArg r ++ (List.replicate r.sep 32 ++ renderArgs rs))) ≠ 0 := by
    cases lead with
    | zero => simpa using h0
    | succ k => simp [List.replicate_succ, deref]
  have hws : fts5ConfigSkipWhitespace (List.replicate lead 32 ++
      (renderArg r ++ (List.replicate r.sep 32 ++ renderArgs rs))) =
      renderArg r ++ (List.replicate r.sep 32 ++ renderArgs rs) := by
    rw [skipWhitespace_spaces, skipWhitespace_of_not_space h32]
  have hws2 : fts5ConfigSkipWhitespace (List.replicate r.sep 32 ++ renderArgs rs) =
      renderArgs rs := by
    rw [skipWhitespace_spaces, skipWhitespace_of_not_space (deref_renderArgs rs hrs)]
  have htake : List.take ((renderArg r ++ (List.replicate r.sep 32 ++ renderArgs rs)).length -
      (List.replicate r.sep 32 ++ renderArgs rs).length)
      (renderArg r ++ (List.replicate r.sep 32 ++ renderArgs rs)) = renderArg r := by
    simp
  simp only [parseLoop, renderArgs, hp0, if_false, hws, hscan, htake, hdq, hws2, expectedArg]

theorem parseLoop_rendered (rs : List Rendering) (h : WellRendered rs) :
    ∀ (fuel n : Nat) (acc : List Argument), rs.length < fuel →
      parseLoop fuel (renderArgs rs) n acc =
        some (ParseResult.ok (n + rs.length) (acc ++ rs.map expectedArg)) := by
  induction rs with
  | nil =>
    intro fuel n acc hf
    cases fuel with
    | zero => omega
    | succ f => simp [parseLoop, renderArgs, deref]
  | cons r rs ih =>
    intro fuel n acc hf
    cases fuel with
    | zero => omega
    | succ f =>
      have hstep := parseLoop_rendered_step f 0 r rs n acc h
      simp only [List.replicate_zero, List.nil_append] at hstep
      rw [hstep, ih h.2.2.2 f (n + 1) (acc ++ [expectedArg r]) (by simpa using hf)]
      simp [Nat.add_assoc, Nat.add_comm 1]

theorem skipWhitespace_suffix (p : List Nat) : fts5ConfigSkipWhitespace p <:+ p := by
  induction p with
  | nil => exact List.suffix_refl _
  | cons b rest ih =>
    by_cases h : fts5_iswhitespace b = true
    · simp only [fts5ConfigSkipWhitespace, h, if_true]
      exact ih.trans (List.suffix_cons b rest)
    · simp only [fts5ConfigSkipWhitespace, h]
      exact List.suffix_refl _

theorem mem_skipWhitespace {b : Nat} {p : List Nat} (hb : b ∈ p) (h32 : b ≠ 32) :
    b ∈ fts5ConfigSkipWhitespace p := by
  induction p with
  | nil => exact absurd hb (List.not_mem_nil b)
  | cons c rest ih =>
    by_cases h : fts5_iswhitespace c = true
    · have hc : c = 32 := by simpa [fts5_iswhitespace] using h
      simp only [fts5ConfigSkipWhitespace, h, if_true]
      rcases List.mem_cons.mp hb with rfl | hr
      · exact absurd hc h32
      · exact ih hr
    · simpa only [fts5ConfigSkipWhitespace, h] using hb

theorem deref_skipWhitespace (p : List Nat) : deref (fts5ConfigSkipWhitespace p) ≠ 32 := by
  induction p with
  | nil => simp [fts5ConfigSkipWhitespace, deref]
  | cons c rest ih =>
    by_cases h : fts5_iswhitespace c = true
    · simpa only [fts5ConfigSkipWhitespace, h, if_true] using ih
    · have hc : c ≠ 32 := by simpa [fts5_iswhitespace] using h
      simpa only [fts5ConfigSkipWhitespace, h, deref] using hc

theorem barewordRun_suffix (p : List Nat) : barewordRun p <:+ p := by
  induction p with
  | nil => exact List.suffix_refl _
  | cons b rest ih =>
    by_cases h : sqlite3Fts5IsBareword b = true
    · simp only [barewordRun, h, if_true]
      exact ih.trans (List.suffix_cons b rest)
    · simp only [barewordRun, h]
      exact List.suffix_refl _

theorem mem_barewordRun {b : Nat} {p : List Nat} (hb : b ∈ p)
    (hbw : sqlite3Fts5IsBareword b = false) : b ∈ barewordRun p := by
  induction p with
  | nil => exact absurd hb (List.not_mem_nil b)
  | cons c rest ih =>
    by_cases h : sqlite3Fts5IsBareword c = true
    · simp only [barewordRun, h, if_true]
      rcases List.mem_cons.mp hb with rfl | hr
      · rw [h] at hbw; exact absurd hbw (by decide)
      · exact ih hr
    · simpa only [barewordRun, h] using hb

theorem NulFree.of_suffix {p q : List Nat} (h : NulFree p) (hs : q <:+ p) : NulFree q :=
  fun b hb => h b (hs.subset hb)

theorem deref_ne_zero_of_mem {p : List Nat} (h : NulFree p) (hne : p ≠ []) : deref p ≠ 0 := by
  cases p with
  | nil => exact absurd rfl hne
  | cons b rest => exact h b (by simp)

/-- A string without a quote that holds a byte that is neither a space nor a bareword
byte makes the loop end with a null cursor. -/
theorem parseLoop_bad_byte : ∀ (fuel : Nat) (p : List Nat) (n : Nat) (acc : List Argument),
    p.length < fuel → NulFree p → 39 ∉ p →
    (∃ b ∈ p, b ≠ 32 ∧ sqlite3Fts5IsBareword b = false) →
    parseLoop fuel p n acc = some ParseResult.parseError := by
  intro fuel
  induction fuel with
  | zero => intro p n acc hf; omega
  | succ f ih =>
    intro p n acc hf hnul hq ⟨b, hb, hb32, hbw⟩
    have hpne : p ≠ [] := List.ne_nil_of_mem hb
    have hp0 : deref p ≠ 0 := deref_ne_zero_of_mem hnul hpne
    have hs2 := skipWhitespace_suffix p
    have hb2 : b ∈ fts5ConfigSkipWhitespace p := mem_skipWhitespace hb hb32
    have hq2 : deref (fts5ConfigSkipWhitespace p) ≠ 39 := by
      intro h
      have hne2 : fts5ConfigSkipWhitespace p ≠ [] := List.ne_nil_of_mem hb2
      obtain ⟨c, r, hcr⟩ := List.exists_cons_of_ne_nil hne2
      rw [hcr] at h
      have hc : c = 39 := h
      exact hq (hs2.subset (by rw [hcr, hc]; simp))
    simp only [parseLoop, hp0, if_false, scanArgument, hq2, fts5ConfigSkipBareword]
    by_cases hlen : (barewordRun (fts5ConfigSkipWhitespace p)).length =
        (fts5ConfigSkipWhitespace p).length
    · simp only [hlen, if_true]
    · simp only [hlen, if_false]
      have hs3 := barewordRun_suffix (fts5ConfigSkipWhitespace p)
      have hs4 := skipWhitespace_suffix (barewordRun (fts5ConfigSkipWhitespace p))
      have hsuf := (hs4.trans hs3).trans hs2
      apply ih
      · have h1 := hs4.length_le
        have h2 := hs3.length_le
        have h3 := hs2.length_le
        omega
      · exact hnul.of_suffix hsuf
      · exact fun h => hq (hsuf.subset h)
      · exact ⟨b, mem_skipWhitespace (mem_barewordRun hb2 hbw) hb32, hb32, hbw⟩

theorem dequoteLoop_length_le (q : Nat) (l : List Nat) :
    (fts5DequoteLoop q l).length ≤ l.length := by
  induction l using fts5DequoteLoop.induct q with
  | case1 => simp [fts5DequoteLoop]
  | case2 rest => cases rest <;> simp [fts5DequoteLoop]
  | case3 h => simp [fts5DequoteLoop]
  | case4 b rest hb hq0 => simp [fts5DequoteLoop, hb]
  | case5 b rest hb hq0 ih =>
    have hbq : b = q := not_not.mp hb
    subst hbq
    simp only [fts5DequoteLoop, hq0, if_false, if_true, ne_eq, not_true_eq_false,
      List.length_cons]
    omega
  | case6 b rest h0 hq ih =>
    rw [dequoteLoop_cons_other q b rest h0 hq]
    simpa using ih

/-- A second dequote leaves a string unchanged exactly when the string does not begin
with an open-quote character. -/
theorem dequote_fixed_iff (t : List Nat) :
    sqlite3Fts5Dequote t = t ↔ isOpenQuote (deref t) = false := by
  constructor
  · intro h
    cases hq : isOpenQuote (deref t) with
    | false => rfl
    | true =>
      exfalso
      cases t with
      | nil => simp [deref, isOpenQuote] at hq
      | cons o rest =>
        have hlen := dequoteLoop_length_le (if o = 91 then 93 else o) rest
        have hq2 : isOpenQuote o = true := hq
        have h2 : (sqlite3Fts5Dequote (o :: rest)).length = (o :: rest).length := by rw [h]
        simp only [sqlite3Fts5Dequote, deref, List.headD_cons, hq2, if_true, fts5Dequote,
          List.tail_cons, List.length_cons] at h2
        omega
  · intro h
    simp [sqlite3Fts5Dequote, h]

theorem quotedRun_ptr (X : List Nat) : ∀ q : List Nat, NulFree X →
    quotedRun X = Cursor.ptr q →
    ∃ body, X = body ++ q ∧ (fts5DequoteLoop 39 body = [] → body = [39]) := by
  induction X using quotedRun.induct with
  | case1 => intro q _ h; simp [quotedRun] at h
  | case2 =>
    intro q _ h
    rw [quotedRun_close [] (by decide), Cursor.ptr.injEq] at h
    exact ⟨[39], by simp [← h], fun _ => rfl⟩
  | case3 b rest hb =>
    intro q _ h
    rw [quotedRun_close (b :: rest) hb, Cursor.ptr.injEq] at h
    exact ⟨[39], by simp [← h], fun _ => rfl⟩
  | case4 b rest hb hd =>
    intro q _ h
    have hb2 : b = 39 := not_not.mp hb
    subst hb2
    rw [quotedRun_escaped_end rest hd] at h
    exact absurd h (by simp)
  | case5 b rest hb hd ih =>
    intro q hn h
    have hb2 : b = 39 := not_not.mp hb
    subst hb2
    rw [quotedRun_escaped rest hd] at h
    obtain ⟨body, hX, -⟩ := ih q (fun x hx => hn x (by simp [hx])) h
    refine ⟨39 :: 39 :: body, by simp [hX], ?_⟩
    intro hnil
    simp [fts5DequoteLoop] at hnil
  | case6 b rest hb hd =>
    intro q _ h
    rw [quotedRun_other_end b rest hb hd] at h
    exact absurd h (by simp)
  | case7 b rest hb hd ih =>
    intro q hn h
    rw [quotedRun_other b rest hb hd] at h
    obtain ⟨body, hX, -⟩ := ih q (fun x hx => hn x (by simp [hx])) h
    have hb0 : b ≠ 0 := hn b (by simp)
    refine ⟨b :: body, by simp [hX], ?_⟩
    intro hnil
    rw [dequoteLoop_cons_other 39 b body hb0 hb] at hnil
    exact absurd hnil (by simp)

/-- What a successful scan of one argument yields: the cursor is a suffix of the
input, the span is not empty, a span that does not open with a single quote starts with
a bareword byte, and the span dequotes to the empty string only if it is two quotes. -/
theorem scanArgument_ptr (p2 q : List Nat) (hn : NulFree p2)
    (h : scanArgument p2 = Cursor.ptr q) :
    q <:+ p2 ∧ List.take (p2.length - q.length) p2 ≠ [] ∧
    (deref p2 ≠ 39 →
      sqlite3Fts5IsBareword (deref (List.take (p2.length - q.length) p2)) = true) ∧
    (sqlite3Fts5Dequote (List.take (p2.length - q.length) p2) = [] →
      List.take (p2.length - q.length) p2 = [39, 39]) := by
  by_cases hq : deref p2 = 39
  · cases p2 with
    | nil => exact absurd hq (by decide)
    | cons b X =>
      have hb : b = 39 := hq
      subst hb
      simp only [scanArgument, hq, if_true, skipLiteral_quote] at h
      obtain ⟨body, hX, hbody⟩ := quotedRun_ptr X q (fun x hx => hn x (by simp [hx])) h
      have htake : List.take ((39 :: X).length - q.length) (39 :: X) = 39 :: body := by
        subst hX
        have : (39 :: (body ++ q)).length - q.length = (39 :: body).length := by
          simp only [List.length_cons, List.length_append]; omega
        rw [this, ← List.cons_append, List.take_left]
      rw [htake]
      refine ⟨?_, by simp, fun hne => absurd hq hne, ?_⟩
      · subst hX
        exact (List.suffix_append body q).trans (List.suffix_cons 39 _)
      · intro hd
        have hd2 : fts5DequoteLoop 39 body = [] := by
          simpa [sqlite3Fts5Dequote, isOpenQuote, deref, fts5Dequote] using hd
        rw [hbody hd2]
  · simp only [scanArgument, hq, if_false, fts5ConfigSkipBareword] at h
    by_cases hlen : (barewordRun p2).length = p2.length
    · simp [hlen] at h
    · simp only [hlen, if_false, Cursor.ptr.injEq] at h
      subst h
      have hhead : sqlite3Fts5IsBareword (deref p2) = true := by
        cases p2 with
        | nil => exact absurd rfl hlen
        | cons b rest =>
          by_contra hb
          exact hlen (by simp [barewordRun, show sqlite3Fts5IsBareword b = false from by
            simpa [deref] using hb])
      have hsuf := barewordRun_suffix p2
      generalize barewordRun p2 = q at hlen hsuf ⊢
      obtain ⟨w, hw⟩ := hsuf
      subst hw
      have hwne : w ≠ [] := by
        rintro rfl
        exact hlen (by simp)
      have htake : List.take ((w ++ q).length - q.length) (w ++ q) = w := by
        have : (w ++ q).length - q.length = w.length := by simp
        rw [this, List.take_left]
      have hderef : deref w = deref (w ++ q) := (deref_append_of_ne_nil _ hwne).symm
      rw [htake]
      refine ⟨⟨w, rfl⟩, hwne, fun _ => by rw [hderef]; exact hhead, ?_⟩
      intro hd
      have hoq := (bareword_byte (hderef ▸ hhead)).2.2.2
      rw [(dequote_fixed_iff w).mpr hoq] at hd
      exact absurd hd hwne

/-- Every argument of a successful parse was either there before the loop or is the
span of a successful scan together with its dequoted text. -/
theorem parseLoop_provenance : ∀ (fuel : Nat) (p : List Nat) (n : Nat) (acc : List Argument)
    (m : Nat) (args : List Argument), NulFree p →
    parseLoop fuel p n acc = some (ParseResult.ok m args) →
    ∀ a ∈ args, a ∈ acc ∨ ∃ p2 q, NulFree p2 ∧ deref p2 ≠ 32 ∧
      scanArgument p2 = Cursor.ptr q ∧
      a = Argument.mk (List.take (p2.length - q.length) p2)
        (sqlite3Fts5Dequote (List.take (p2.length - q.length) p2)) := by
  intro fuel
  induction fuel with
  | zero => intro p n acc m args _ h; simp [parseLoop] at h
  | succ f ih =>
    intro p n acc m args hn h a ha
    by_cases hp0 : deref p = 0
    · simp only [parseLoop, hp0, if_true, Option.some.injEq, ParseResult.ok.injEq] at h
      exact Or.inl (h.2 ▸ ha)
    · have hn2 : NulFree (fts5ConfigSkipWhitespace p) := hn.of_suffix (skipWhitespace_suffix p)
      simp only [parseLoop, hp0, if_false] at h
      cases hsc : scanArgument (fts5ConfigSkipWhitespace p) with
      | null => simp [hsc] at h
      | overrun => simp [hsc] at h
      | ptr q =>
        simp only [hsc] at h
        have hq := (scanArgument_ptr _ q hn2 hsc).1
        have hn3 : NulFree (fts5ConfigSkipWhitespace q) :=
          (hn2.of_suffix hq).of_suffix (skipWhitespace_suffix q)
        rcases ih _ _ _ m args hn3 h a ha with hacc | hex
        · rcases List.mem_append.mp hacc with h1 | h1
          · exact Or.inl h1
          · exact Or.inr ⟨_, q, hn2, deref_skipWhitespace p, hsc, by simpa using h1⟩
        · exact Or.inr hex

/-! ## Lemmas on the token list -/

theorem tokenChain_pToken (s : List Nat) (r : List (List Nat)) :
    (tokenChain s r).pToken = some s := by
  cases r <;> rfl

theorem appendToken_tokenChain (x : List Nat) : ∀ (r : List (List Nat)) (s : List Nat),
    appendToken x (tokenChain s r) = tokenChain s (r ++ [x]) := by
  intro r
  induction r with
  | nil => intro s; rfl
  | cons s2 r ih => intro s; simp [tokenChain, appendToken, ih]

theorem deliverTokens_tokenChain : ∀ (emitted : List (List Nat × Nat)) (s : List Nat)
    (r : List (List Nat)),
    deliverTokens (tokenChain s r) emitted =
      tokenChain s (r ++ emitted.map (fun t => sqlite3_strdup t.1 t.2)) := by
  intro emitted
  induction emitted with
  | nil => intro s r; simp [deliverTokens]
  | cons t emitted ih =>
    intro s r
    have hstep : fts5TokenCallback (tokenChain s r) t.1 t.2 =
        tokenChain s (r ++ [sqlite3_strdup t.1 t.2]) := by
      simp [fts5TokenCallback, tokenChain_pToken, appendToken_tokenChain]
    have := ih s (r ++ [sqlite3_strdup t.1 t.2])
    simp only [deliverTokens, List.foldl_cons, hstep, List.map_cons, List.append_assoc,
      List.singleton_append] at this ⊢
    exact this

theorem deliverTokens_createToken (t : List Nat × Nat) (emitted : List (List Nat × Nat)) :
    deliverTokens createToken (t :: emitted) =
      tokenChain (sqlite3_strdup t.1 t.2) (emitted.map (fun t => sqlite3_strdup t.1 t.2)) := by
  have hfirst : fts5TokenCallback createToken t.1 t.2 = tokenChain (sqlite3_strdup t.1 t.2) [] := by
    rfl
  have := deliverTokens_tokenChain emitted (sqlite3_strdup t.1 t.2) []
  simp only [deliverTokens, List.foldl_cons, hfirst, List.nil_append] at this ⊢
  exact this

theorem set_append_cons {α : Type} (pre : List α) (y x : α) (rest : List α) :
    (pre ++ y :: rest).set pre.length x = pre ++ x :: rest := by
  induction pre with
  | nil => rfl
  | cons a pre ih => simp [ih]

/-- The collection loop on a chain of tokens, started at index `pre.length` with the
array filled up to there: either every token fits, or the array is filled and the loop
is left through its condition with `tokenIndex = MAX_TOKENS`. -/
theorem collectLoop_tokenChain : ∀ (r : List (List Nat)) (s : List Nat)
    (pre : List (Option (List Nat))) (k : Nat), pre.length + k = MAX_TOKENS →
    collectLoop (tokenChain s r) (pre ++ List.replicate k none) pre.length =
      if r.length < k then
        (pre ++ ((s :: r).map some ++ List.replicate (k - r.length - 1) none),
          pre.length + r.length)
      else (pre ++ ((s :: r).take k).map some, MAX_TOKENS) := by
  intro r
  induction r with
  | nil =>
    intro s pre k hk
    cases k with
    | zero =>
      have hlt : ¬ pre.length < MAX_TOKENS := by omega
      have hpl : pre.length = MAX_TOKENS := by omega
      simp [tokenChain, collectLoop, hlt, hpl]
    | succ k =>
      have hlt : pre.length < MAX_TOKENS := by omega
      simp [tokenChain, collectLoop, hlt, storeToken, List.replicate_succ, set_append_cons]
  | cons s2 r ih =>
    intro s pre k hk
    cases k with
    | zero =>
      have hlt : ¬ pre.length < MAX_TOKENS := by omega
      have hpl : pre.length = MAX_TOKENS := by omega
      simp [tokenChain, collectLoop, hlt, hpl]
    | succ k =>
      have hlt : pre.length < MAX_TOKENS := by omega
      have hk2 : (pre ++ [some s]).length + k = MAX_TOKENS := by
        simp only [List.length_append, List.length_singleton]
        omega
      have hih := ih s2 (pre ++ [some s]) k hk2
      simp only [List.length_append, List.length_singleton, List.append_assoc,
        List.singleton_append] at hih
      simp only [tokenChain, collectLoop, hlt, if_true, storeToken, List.replicate_succ,
        set_append_cons, hih, List.length_cons, Nat.add_lt_add_iff_right]
      by_cases hr : r.length < k
      · simp only [hr, if_true, List.map_cons, List.cons_append, Prod.mk.injEq]
        refine ⟨?_, by omega⟩
        have : k + 1 - (r.length + 1) - 1 = k - r.length - 1 := by omega
        rw [this]
      · simp [hr]

theorem map_range_getElem? {α : Type} : ∀ (A B : List α),
    (List.range A.length).map (fun i => (A ++ B)[i]?) = A.map some := by
  intro A
  induction A with
  | nil => intro B; simp
  | cons a A ih =>
    intro B
    rw [List.length_cons, List.range_succ_eq_map, List.map_cons, List.map_map]
    have hfun : ((fun i => (a :: A ++ B)[i]?) ∘ Nat.succ) = fun i => (A ++ B)[i]? := by
      funext i; simp
    rw [hfun, ih B]
    simp

/-- Up to `MAX_TOKENS` emitted tokens are all collected, in order. -/
theorem accumulate_fits (t : List Nat × Nat) (emitted : List (List Nat × Nat))
    (h : (t :: emitted).length ≤ MAX_TOKENS) :
    (accumulate (t :: emitted)).tokenCount = (t :: emitted).length ∧
    boundEntries (accumulate (t :: emitted)) =
      (t :: emitted).map (fun t => some (some (sqlite3_strdup t.1 t.2))) := by
  have hlen : emitted.length < MAX_TOKENS := by simpa [Nat.lt_iff_add_one_le] using h
  have hloop := collectLoop_tokenChain (emitted.map (fun t => sqlite3_strdup t.1 t.2))
    (sqlite3_strdup t.1 t.2) [] MAX_TOKENS (by simp)
  simp only [List.nil_append, List.length_nil, List.length_map, hlen, if_true,
    Nat.zero_add] at hloop
  simp only [accumulate, collectTokens, deliverTokens_createToken, hloop, boundEntries]
  refine ⟨by simp, ?_⟩
  have := map_range_getElem?
    (List.map some (sqlite3_strdup t.1 t.2 :: emitted.map (fun t => sqlite3_strdup t.1 t.2)))
    (List.replicate (MAX_TOKENS - emitted.length - 1) none)
  simp only [List.length_map, List.length_cons] at this
  simp only [List.length_cons, this]
  simp

/-- More than `MAX_TOKENS` emitted tokens: the loop is left through its condition with
`tokenIndex = MAX_TOKENS`, so `tokenCount` is `MAX_TOKENS + 1` and the entry with index
`MAX_TOKENS`, which lies outside the array, is read as well. -/
theorem accumulate_overflow (emitted : List (List Nat × Nat))
    (h : MAX_TOKENS < emitted.length) :
    (accumulate emitted).tokenCount = MAX_TOKENS + 1 ∧
    (accumulate emitted).tokens =
      (emitted.take MAX_TOKENS).map (fun t => some (sqlite3_strdup t.1 t.2)) ∧
    boundEntries (accumulate emitted) =
      (emitted.take MAX_TOKENS).map (fun t => some (some (sqlite3_strdup t.1 t.2))) ++
        [none] := by
  cases emitted with
  | nil => simp at h
  | cons t emitted =>
    have hlen : ¬ emitted.length < MAX_TOKENS := by
      simp only [List.length_cons] at h; omega
    have hloop := collectLoop_tokenChain (emitted.map (fun t => sqlite3_strdup t.1 t.2))
      (sqlite3_strdup t.1 t.2) [] MAX_TOKENS (by simp)
    simp only [List.nil_append, List.length_nil, List.length_map, hlen, if_false] at hloop
    have htok : (accumulate (t :: emitted)).tokens =
        ((t :: emitted).take MAX_TOKENS).map (fun t => some (sqlite3_strdup t.1 t.2)) := by
      simp only [accumulate, collectTokens, deliverTokens_createToken, hloop]
      rw [← List.map_cons (fun t : List Nat × Nat => sqlite3_strdup t.1 t.2), ← List.map_take]
      simp [Function.comp_def]
    have hcnt : (accumulate (t :: emitted)).tokenCount = MAX_TOKENS + 1 := by
      simp only [accumulate, collectTokens, deliverTokens_createToken, hloop]
    refine ⟨hcnt, htok, ?_⟩
    have hl : ((t :: emitted).take MAX_TOKENS).length = MAX_TOKENS := by
      rw [List.length_take]; omega
    simp only [boundEntries, hcnt, htok, List.range_succ, List.map_append, List.map_cons,
      List.map_nil]
    congr 1
    · have := map_range_getElem?
        (((t :: emitted).take MAX_TOKENS).map (fun t => some (sqlite3_strdup t.1 t.2))) []
      simp only [List.length_map, hl, List.append_nil] at this
      rw [this]; simp [Function.comp_def]
    · have : (((t :: emitted).take MAX_TOKENS).map
          (fun t => some (sqlite3_strdup t.1 t.2)))[MAX_TOKENS]? = none := by
        rw [List.getElem?_eq_none]; simp [hl]
      rw [this]

/-! ## Termination of the parse loop -/

theorem quotedRun_shorter (X : List Nat) : ∀ q : List Nat,
    quotedRun X = Cursor.ptr q → q.length < X.length := by
  induction X using quotedRun.induct with
  | case1 => intro q h; simp [quotedRun] at h
  | case2 =>
    intro q h
    rw [quotedRun_close [] (by decide), Cursor.ptr.injEq] at h
    simp [← h]
  | case3 b rest hb =>
    intro q h
    rw [quotedRun_close (b :: rest) hb, Cursor.ptr.injEq] at h
    simp [← h]
  | case4 b rest hb hd =>
    intro q h
    have hb2 : b = 39 := not_not.mp hb
    subst hb2
    rw [quotedRun_escaped_end rest hd] at h
    exact absurd h (by simp)
  | case5 b rest hb hd ih =>
    intro q h
    have hb2 : b = 39 := not_not.mp hb
    subst hb2
    rw [quotedRun_escaped rest hd] at h
    have := ih q h
    simp only [List.length_cons]
    omega
  | case6 b rest hb hd =>
    intro q h
    rw [quotedRun_other_end b rest hb hd] at h
    exact absurd h (by simp)
  | case7 b rest hb hd ih =>
    intro q h
    rw [quotedRun_other b rest hb hd] at h
    have := ih q h
    simp only [List.length_cons]
    omega

/-- A successful scan of an argument consumes at least one byte. -/
theorem scanArgument_shorter (p2 q : List Nat) (h : scanArgument p2 = Cursor.ptr q) :
    q.length < p2.length := by
  by_cases hq : deref p2 = 39
  · cases p2 with
    | nil => exact absurd hq (by decide)
    | cons b X =>
      have hb : b = 39 := hq
      subst hb
      simp only [scanArgument, hq, if_true, skipLiteral_quote] at h
      have := quotedRun_shorter X q h
      simp only [List.length_cons]
      omega
  · simp only [scanArgument, hq, if_false, fts5ConfigSkipBareword] at h
    by_cases hlen : (barewordRun p2).length = p2.length
    · simp [hlen] at h
    · simp only [hlen, if_false, Cursor.ptr.injEq] at h
      subst h
      have := (barewordRun_suffix p2).length_le
      omega

/-- The parse loop ends within as many rounds as the string has bytes. -/
theorem parseLoop_total : ∀ (fuel : Nat) (p : List Nat) (n : Nat) (acc : List Argument),
    p.length < fuel → ∃ r, parseLoop fuel p n acc = some r := by
  intro fuel
  induction fuel with
  | zero => intro p n acc hf; omega
  | succ f ih =>
    intro p n acc hf
    by_cases hp0 : deref p = 0
    · exact ⟨ParseResult.ok n acc, by simp only [parseLoop, hp0, if_true]⟩
    · simp only [parseLoop, hp0, if_false]
      cases hsc : scanArgument (fts5ConfigSkipWhitespace p) with
      | null => exact ⟨_, rfl⟩
      | overrun => exact ⟨_, rfl⟩
      | ptr q =>
        apply ih
        have h1 := scanArgument_shorter _ q hsc
        have h2 := (skipWhitespace_suffix p).length_le
        have h3 := (skipWhitespace_suffix q).length_le
        omega

/-- The parse block always comes to an end. -/
theorem parseConfig_total (tokenizeParam : Option (List Nat)) :
    ∃ r, parseConfig tokenizeParam = some r := by
  cases tokenizeParam with
  | none => exact ⟨_, rfl⟩
  | some z => exact parseLoop_total (z.length + 1) z 0 [] (Nat.lt_succ_self _)

/-! ## Unterminated literals -/

theorem deref_doubleEach_eq_zero (t : List Nat) (ht : NulFree t) :
    deref (doubleEach 39 t) = 0 ↔ t = [] := by
  cases t with
  | nil => simp [doubleEach, deref]
  | cons b t =>
    have hb : b ≠ 0 := ht b (by simp)
    by_cases h : b = 39
    · simp [doubleEach, h, deref]
    · simp [doubleEach, h, deref, hb]

/-- The literal loop on a body without a closing quote: the null cursor, except that an
empty body makes the loop read past the terminator. -/
theorem quotedRun_unterminated (t : List Nat) (ht : NulFree t) :
    quotedRun (doubleEach 39 t) = if t = [] then Cursor.overrun else Cursor.null := by
  induction t with
  | nil => simp [doubleEach, quotedRun]
  | cons b t ih =>
    have ht2 : NulFree t := fun x hx => ht x (by simp [hx])
    have hz := deref_doubleEach_eq_zero t ht2
    simp only [reduceCtorEq, if_false]
    by_cases hnil : t = []
    · have hd : deref (doubleEach 39 t) = 0 := hz.mpr hnil
      by_cases h : b = 39
      · subst h
        simp only [doubleEach, if_true]
        exact quotedRun_escaped_end _ hd
      · simp only [doubleEach, h, if_false]
        exact quotedRun_other_end b _ h hd
    · have hd : deref (doubleEach 39 t) ≠ 0 := fun h0 => hnil (hz.mp h0)
      have ih2 := ih ht2
      simp only [hnil, if_false] at ih2
      by_cases h : b = 39
      · subst h
        simp only [doubleEach, if_true]
        rw [quotedRun_escaped _ hd, ih2]
      · simp only [doubleEach, h, if_false]
        rw [quotedRun_other b _ h hd, ih2]

/-- One round of the parse loop on a rendered argument followed by any text that does
not start with a bareword byte nor, after a quoted argument, with a quote. -/
theorem parseLoop_rendered_step_before (fuel lead : Nat) (r : Rendering) (rest : List Nat)
    (n : Nat) (acc : List Argument) (hn : NulFree r.w)
    (hb : r.quoted = false → r.w ≠ [] ∧ ∀ b ∈ r.w, sqlite3Fts5IsBareword b = true)
    (hrbw : sqlite3Fts5IsBareword (deref rest) = false)
    (hrq : r.quoted = true → deref rest ≠ 39) :
    parseLoop (fuel + 1) (List.replicate lead 32 ++ (renderArg r ++ rest)) n acc =
      parseLoop fuel (fts5ConfigSkipWhitespace rest) (n + 1) (acc ++ [expectedArg r]) := by
  obtain ⟨hscan, h32, h0, hne, hdq⟩ := scanArgument_renderArg_before r rest hn hb hrbw hrq
  have hp0 : deref (List.replicate lead 32 ++ (renderArg r ++ rest)) ≠ 0 := by
    cases lead with
    | zero => simpa using h0
    | succ k => simp [List.replicate_succ, deref]
  have hws : fts5ConfigSkipWhitespace (List.replicate lead 32 ++ (renderArg r ++ rest)) =
      renderArg r ++ rest := by
    rw [skipWhitespace_spaces, skipWhitespace_of_not_space h32]
  have htake : List.take ((renderArg r ++ rest).length - rest.length)
      (renderArg r ++ rest) = renderArg r := by
    simp
  simp only [parseLoop, hp0, if_false, hws, hscan, htake, hdq, expectedArg]

/-- Well-formed arguments followed by a quote that opens a literal without a closing
quote: the parse ends with the parse error when at least one byte follows the opening
quote, and reads past the terminator when none does. -/
theorem parseLoop_unterminated (t : List Nat) (ht : NulFree t) :
    ∀ (rs : List Rendering), WellRendered rs →
    (∀ r, rs.getLast? = some r → r.quoted = true → 1 ≤ r.sep) →
    ∀ (fuel lead n : Nat) (acc : List Argument), rs.length < fuel →
      parseLoop fuel (List.replicate lead 32 ++ (renderArgs rs ++ 39 :: doubleEach 39 t)) n acc =
        some (if t = [] then ParseResult.overrun else ParseResult.parseError) := by
  intro rs
  induction rs with
  | nil =>
    intro _ _ fuel lead n acc hf
    cases fuel with
    | zero => omega
    | succ f =>
      have hp0 : deref (List.replicate lead 32 ++ 39 :: doubleEach 39 t) ≠ 0 := by
        cases lead with
        | zero => simp [deref]
        | succ k => simp [List.replicate_succ, deref]
      have hws : fts5ConfigSkipWhitespace (List.replicate lead 32 ++ 39 :: doubleEach 39 t) =
          39 :: doubleEach 39 t := by
        rw [skipWhitespace_spaces, skipWhitespace_of_not_space (by simp [deref])]
      have hscan : scanArgument (39 :: doubleEach 39 t) =
          if t = [] then Cursor.overrun else Cursor.null := by
        simp only [scanArgument, deref, List.headD_cons, if_true, skipLiteral_quote]
        exact quotedRun_unterminated t ht
      simp only [renderArgs, List.nil_append, parseLoop, hp0, if_false, hws, hscan]
      by_cases hnil : t = [] <;> simp [hnil]
  | cons r rs ih =>
    intro hwf hlast fuel lead n acc hf
    obtain ⟨hn, hb, hsep, hrs⟩ := hwf
    cases fuel with
    | zero => omega
    | succ f =>
      have hassoc : List.replicate lead 32 ++ (renderArgs (r :: rs) ++ 39 :: doubleEach 39 t) =
          List.replicate lead 32 ++ (renderArg r ++
            (List.replicate r.sep 32 ++ (renderArgs rs ++ 39 :: doubleEach 39 t))) := by
        simp [renderArgs]
      have hder : ∀ Y : List Nat, (r.sep = 0 → deref Y = 39) →
          (deref (List.replicate r.sep 32 ++ Y) = 32 ∧ 1 ≤ r.sep) ∨
          (deref (List.replicate r.sep 32 ++ Y) = 39 ∧ r.sep = 0) := by
        intro Y hY
        cases hk : r.sep with
        | zero => exact Or.inr ⟨by simpa using hY hk, rfl⟩
        | succ k => exact Or.inl ⟨by simp [List.replicate_succ, deref], by omega⟩
      have hY : r.sep = 0 → deref (renderArgs rs ++ 39 :: doubleEach 39 t) = 39 := by
        intro h0
        have hnil : rs = [] := by
          by_contra hne
          have := hsep hne
          omega
        simp [hnil, renderArgs, deref]
      have hrbw : sqlite3Fts5IsBareword (deref (List.replicate r.sep 32 ++
          (renderArgs rs ++ 39 :: doubleEach 39 t))) = false := by
        rcases hder _ hY with ⟨h, -⟩ | ⟨h, -⟩ <;> rw [h] <;> decide
      have hrq : r.quoted = true → deref (List.replicate r.sep 32 ++
          (renderArgs rs ++ 39 :: doubleEach 39 t)) ≠ 39 := by
        intro hq
        rcases hder _ hY with ⟨h, -⟩ | ⟨-, h0⟩
        · rw [h]; decide
        · exfalso
          have hnil : rs = [] := by
            by_contra hne
            have := hsep hne
            omega
          have := hlast r (by simp [hnil]) hq
          omega
      have hnext : deref (renderArgs rs ++ 39 :: doubleEach 39 t) ≠ 32 := by
        cases rs with
        | nil => simp [renderArgs, deref]
        | cons r2 rs2 =>
          obtain ⟨-, h32, -, -, -⟩ := scanArgument_renderArg_before r2
            (List.replicate r2.sep 32 ++ (renderArgs rs2 ++ 39 :: doubleEach 39 t))
            hrs.1 hrs.2.1 (by
              cases hk : r2.sep with
              | zero =>
                have hnil : rs2 = [] := by
                  by_contra hne
                  have := hrs.2.2.1 hne
                  omega
                simp [hnil, renderArgs, deref]
                decide
              | succ k => simp [List.replicate_succ, deref]; decide)
            (by
              intro hq
              cases hk : r2.sep with
              | zero =>
                exfalso
                have hnil : rs2 = [] := by
                  by_contra hne
                  have := hrs.2.2.1 hne
                  omega
                have := hlast r2 (by simp [hnil]) hq
                omega
              | succ k => simp [List.replicate_succ, deref])
          simpa [renderArgs] using h32
      rw [hassoc, parseLoop_rendered_step_before f lead r _ n acc hn hb hrbw hrq,
        skipWhitespace_spaces, skipWhitespace_of_not_space hnext]
      have hlast2 : ∀ r2, rs.getLast? = some r2 → r2.quoted = true → 1 ≤ r2.sep := by
        intro r2 h2
        apply hlast r2
        cases rs with
        | nil => simp at h2
        | cons a l => simpa [List.getLast?_cons_cons] using h2
      have := ih hrs hlast2 f 0 (n + 1) (acc ++ [expectedArg r]) (by simpa using hf)
      simpa using this

/-- Well-formed arguments followed, with or without spaces, by a single quote that
opens a literal without a closing quote: the parse fails with the parse error exactly
when a byte follows the opening quote, and reads past the terminator otherwise. -/
theorem parse_unterminated (lead : Nat) (rs : List Rendering) (t : List Nat)
    (hwf : WellRendered rs)
    (hlast : ∀ r, rs.getLast? = some r → r.quoted = true → 1 ≤ r.sep) (ht : NulFree t) :
    parseConfig (some (List.replicate lead 32 ++ (renderArgs rs ++ 39 :: doubleEach 39 t))) =
      some (if t = [] then ParseResult.overrun else ParseResult.parseError) := by
  have hlen := length_le_renderArgs rs hwf
  apply parseLoop_unterminated t ht rs hwf hlast
  simp only [List.length_append, List.length_replicate, List.length_cons]
  omega

/-! ## The dequote loop on the buffer -/

theorem getD_append_length (a b : List Nat) :
    (a ++ b).getD a.length 0 = deref b := by
  induction a with
  | nil => cases b <;> rfl
  | cons x a ih => simpa using ih

theorem getD_gap (out gap l : List Nat) :
    (out ++ (gap ++ l)).getD (out.length + gap.length) 0 = deref l := by
  rw [← List.append_assoc, ← List.length_append]
  exact getD_append_length _ _

theorem getD_gap_succ (out gap : List Nat) (b : Nat) (l : List Nat) :
    (out ++ (gap ++ b :: l)).getD (out.length + gap.length + 1) 0 = deref l := by
  have := getD_append_length (out ++ (gap ++ [b])) l
  simpa [Nat.add_assoc] using this

theorem set_gap (out gap R : List Nat) (v : Nat) (hg : gap ≠ []) :
    (out ++ (gap ++ R)).set out.length v = (out ++ [v]) ++ (gap.tail ++ R) := by
  cases gap with
  | nil => exact absurd rfl hg
  | cons x gap =>
    induction out with
    | nil => simp
    | cons y out ih => simp [ih]

theorem dequoteInPlace_stop (q fuel : Nat) (z : List Nat) (iIn iOut : Nat)
    (h : z.getD iIn 0 = 0) :
    fts5DequoteInPlace q (fuel + 1) z iIn iOut = (z, iIn, iOut) := by
  simp only [fts5DequoteInPlace, h, if_true]

theorem dequoteInPlace_close (q fuel : Nat) (z : List Nat) (iIn iOut : Nat) (hq : q ≠ 0)
    (h : z.getD iIn 0 = q) (h2 : z.getD (iIn + 1) 0 ≠ q) :
    fts5DequoteInPlace q (fuel + 1) z iIn iOut = (z, iIn + 1, iOut) := by
  simp only [fts5DequoteInPlace, h, hq, if_false, if_true, h2, ne_eq, not_false_eq_true]

theorem dequoteInPlace_escaped (q fuel : Nat) (z : List Nat) (iIn iOut : Nat) (hq : q ≠ 0)
    (h : z.getD iIn 0 = q) (h2 : z.getD (iIn + 1) 0 = q) :
    fts5DequoteInPlace q (fuel + 1) z iIn iOut =
      fts5DequoteInPlace q fuel (z.set iOut q) (iIn + 2) (iOut + 1) := by
  simp only [fts5DequoteInPlace, h, hq, if_false, if_true, h2, ne_eq, not_true_eq_false]

theorem dequoteInPlace_copy (q fuel : Nat) (z : List Nat) (iIn iOut b : Nat) (hb : b ≠ 0)
    (hbq : b ≠ q) (h : z.getD iIn 0 = b) :
    fts5DequoteInPlace q (fuel + 1) z iIn iOut =
      fts5DequoteInPlace q fuel (z.set iOut b) (iIn + 1) (iOut + 1) := by
  simp only [fts5DequoteInPlace, h, hb, hbq, if_false]

theorem dequoteLoop_zero (q : Nat) (rest : List Nat) : fts5DequoteLoop q (0 :: rest) = [] := by
  cases rest <;> simp [fts5DequoteLoop]

theorem dequoteLoop_close (q : Nat) (rest : List Nat) (h : deref rest ≠ q) :
    fts5DequoteLoop q (q :: rest) = [] := by
  cases rest with
  | nil => simp [fts5DequoteLoop]
  | cons c r =>
    have hc : c ≠ q := h
    simp [fts5DequoteLoop, hc]

theorem dequoteLoop_escaped (q : Nat) (hq : q ≠ 0) (rest : List Nat) :
    fts5DequoteLoop q (q :: q :: rest) = q :: fts5DequoteLoop q rest := by
  simp [fts5DequoteLoop, hq]

/-- The in-place loop leaves at `z[0..iOut)` what the list-level loop returns, keeps
`iOut` below `iIn`, and never moves `iIn` past the terminator. -/
theorem dequoteInPlace_refines (q : Nat) (hq : q ≠ 0) : ∀ (fuel : Nat)
    (out gap rest tl : List Nat), rest.length < fuel → gap ≠ [] → deref tl = 0 →
    ∃ (z2 : List Nat) (iIn2 : Nat),
      fts5DequoteInPlace q fuel (out ++ (gap ++ (rest ++ tl))) (out.length + gap.length)
          out.length = (z2, iIn2, (out ++ fts5DequoteLoop q rest).length) ∧
      z2.take (out ++ fts5DequoteLoop q rest).length = out ++ fts5DequoteLoop q rest ∧
      (out ++ fts5DequoteLoop q rest).length < iIn2 ∧
      iIn2 ≤ out.length + gap.length + rest.length ∧
      z2.length = (out ++ (gap ++ (rest ++ tl))).length := by
  intro fuel
  induction fuel with
  | zero => intro out gap rest tl hf; omega
  | succ f ih =>
    intro out gap rest tl hf hg htl
    have hgl : 0 < gap.length := List.length_pos.mpr hg
    cases rest with
    | nil =>
      have h0 : (out ++ (gap ++ ([] ++ tl))).getD (out.length + gap.length) 0 = 0 := by
        rw [getD_gap, List.nil_append, htl]
      refine ⟨out ++ (gap ++ ([] ++ tl)), out.length + gap.length, ?_, ?_, ?_, ?_, rfl⟩
      · rw [dequoteInPlace_stop q f _ _ _ h0]; simp [fts5DequoteLoop]
      · simp [fts5DequoteLoop]
      · simp only [fts5DequoteLoop, List.append_nil]; omega
      · simp
    | cons b rest =>
      have hrd : (out ++ (gap ++ (b :: rest ++ tl))).getD (out.length + gap.length) 0 = b := by
        rw [getD_gap]; rfl
      have hrd2 : (out ++ (gap ++ (b :: rest ++ tl))).getD (out.length + gap.length + 1) 0 =
          deref (rest ++ tl) := by
        rw [List.cons_append, getD_gap_succ]
      by_cases hb0 : b = 0
      · subst hb0
        refine ⟨out ++ (gap ++ (0 :: rest ++ tl)), out.length + gap.length, ?_, ?_, ?_, ?_, rfl⟩
        · rw [dequoteInPlace_stop q f _ _ _ hrd, dequoteLoop_zero, List.append_nil]
        · simp [dequoteLoop_zero]
        · simp only [dequoteLoop_zero, List.append_nil]; omega
        · simp
      · by_cases hbq : b = q
        · subst hbq
          by_cases hnext : deref (rest ++ tl) = b
          · -- escaped quote
            obtain ⟨rest2, hrest⟩ : ∃ rest2, rest = b :: rest2 := by
              cases rest with
              | nil => rw [List.nil_append, htl] at hnext; exact absurd hnext.symm hb0
              | cons c r => exact ⟨r, by rw [show c = b from hnext]⟩
            subst hrest
            rw [dequoteInPlace_escaped b f _ _ _ hb0 hrd (by rw [hrd2, hnext]),
              set_gap out gap _ b hg]
            have hih := ih (out ++ [b]) (gap.tail ++ [b, b]) rest2 tl
              (by simp only [List.length_cons] at hf; omega) (by simp) htl
            have hlen : (out ++ [b]).length + (gap.tail ++ [b, b]).length =
                out.length + gap.length + 2 := by
              simp only [List.length_append, List.length_tail, List.length_cons,
                List.length_nil, List.length_singleton]
              omega
            have hbuf : (out ++ [b]) ++ (gap.tail ++ [b, b] ++ (rest2 ++ tl)) =
                (out ++ [b]) ++ (gap.tail ++ (b :: b :: rest2 ++ tl)) := by
              simp
            rw [hlen, hbuf] at hih
            obtain ⟨z2, iIn2, heq, htake, hlt, hle, hzl⟩ := hih
            have hout : out ++ [b] ++ fts5DequoteLoop b rest2 =
                out ++ fts5DequoteLoop b (b :: b :: rest2) := by
              rw [dequoteLoop_escaped b hb0]; simp
            rw [hout] at heq htake hlt
            refine ⟨z2, iIn2, ?_, htake, hlt, ?_, ?_⟩
            · simpa using heq
            · simp only [List.length_cons]; omega
            · rw [hzl]
              simp only [List.length_append, List.length_tail, List.length_cons,
                List.length_nil, List.length_singleton]
              omega
          · -- closing quote
            refine ⟨out ++ (gap ++ (b :: rest ++ tl)), out.length + gap.length + 1,
              ?_, ?_, ?_, ?_, rfl⟩
            · rw [dequoteInPlace_close b f _ _ _ hb0 hrd (by rw [hrd2]; exact hnext)]
              have hd : deref rest ≠ b := by
                cases rest with
                | nil => rw [List.nil_append, htl] at hnext; exact fun h => hb0 h.symm
                | cons c r => exact hnext
              rw [dequoteLoop_close b rest hd]
              simp
            · have hd : deref rest ≠ b := by
                cases rest with
                | nil => rw [List.nil_append, htl] at hnext; exact fun h => hb0 h.symm
                | cons c r => exact hnext
              rw [dequoteLoop_close b rest hd]
              simp
            · have hd : deref rest ≠ b := by
                cases rest with
                | nil => rw [List.nil_append, htl] at hnext; exact fun h => hb0 h.symm
                | cons c r => exact hnext
              rw [dequoteLoop_close b rest hd]
              simp only [List.append_nil]; omega
            · simp only [List.length_cons]; omega
        · -- plain byte
          rw [dequoteInPlace_copy q f _ _ _ b hb0 hbq hrd, set_gap out gap _ b hg]
          have hih := ih (out ++ [b]) (gap.tail ++ [b]) rest tl
            (by simp only [List.length_cons] at hf; omega) (by simp) htl
          have hlen : (out ++ [b]).length + (gap.tail ++ [b]).length =
              out.length + gap.length + 1 := by
            simp only [List.length_append, List.length_tail, List.length_cons,
              List.length_nil, List.length_singleton]
            omega
          have hbuf : (out ++ [b]) ++ (gap.tail ++ [b] ++ (rest ++ tl)) =
              (out ++ [b]) ++ (gap.tail ++ (b :: rest ++ tl)) := by
            simp
          rw [hlen, hbuf] at hih
          obtain ⟨z2, iIn2, heq, htake, hlt, hle, hzl⟩ := hih
          have hout : out ++ [b] ++ fts5DequoteLoop q rest =
              out ++ fts5DequoteLoop q (b :: rest) := by
            rw [dequoteLoop_cons_other q b rest hb0 hbq]; simp
          rw [hout] at heq htake hlt
          refine ⟨z2, iIn2, ?_, htake, hlt, ?_, ?_⟩
          · simpa using heq
          · simp only [List.length_cons]; omega
          · rw [hzl]
            simp only [List.length_append, List.length_tail, List.length_cons,
              List.length_nil, List.length_singleton]
            omega

theorem dequoteLoop_nulFree (q : Nat) (hq : q ≠ 0) (l : List Nat) :
    NulFree (fts5DequoteLoop q l) := by
  induction l using fts5DequoteLoop.induct q with
  | case1 => simp [fts5DequoteLoop, NulFree]
  | case2 rest => simp [dequoteLoop_zero, NulFree]
  | case3 h => simp [fts5DequoteLoop, NulFree]
  | case4 b rest hb hq0 =>
    rw [dequoteLoop_close q (b :: rest) (show deref (b :: rest) ≠ q from hb)]
    simp [NulFree]
  | case5 b rest hb hq0 ih =>
    have hbq : b = q := not_not.mp hb
    subst hbq
    rw [dequoteLoop_escaped b hq]
    intro x hx
    rcases List.mem_cons.mp hx with rfl | h
    · exact hq
    · exact ih x h
  | case6 b rest h0 hb ih =>
    rw [dequoteLoop_cons_other q b rest h0 hb]
    intro x hx
    rcases List.mem_cons.mp hx with rfl | h
    · exact h0
    · exact ih x h

theorem cString_append_zero (a b : List Nat) (ha : NulFree a) : cString (a ++ 0 :: b) = a := by
  induction a with
  | nil => simp [cString]
  | cons x a ih =>
    have hx : x ≠ 0 := ha x (by simp)
    have ha2 : NulFree a := fun y hy => ha y (by simp [hy])
    have := ih ha2
    have hx2 : (x != 0) = true := by simp [hx]
    simp only [cString] at this ⊢
    rw [List.cons_append, List.takeWhile_cons, hx2, if_pos rfl, this]

/-- The in-place `fts5Dequote`, run on a buffer that holds a quoted string, its
terminator and anything behind it, leaves at the start of the buffer the C string that
the list-level `fts5Dequote` returns; the returned offset is within the string. -/
theorem fts5Dequote_in_place (o : Nat) (body junk : List Nat) (ho : isOpenQuote o = true) :
    cString (fts5DequoteBuffer (o :: body ++ 0 :: junk)).1 = fts5Dequote (o :: body) ∧
    (fts5DequoteBuffer (o :: body ++ 0 :: junk)).2 ≤ (o :: body).length := by
  have hq : (if o = 91 then 93 else o) ≠ 0 := by
    simp only [isOpenQuote, Bool.or_eq_true, beq_iff_eq] at ho
    rcases ho with ((rfl | rfl) | rfl) | rfl <;> decide
  obtain ⟨z2, iIn2, heq, htake, hlt, hle, hzl⟩ :=
    dequoteInPlace_refines _ hq (o :: body ++ 0 :: junk).length [] [o] body (0 :: junk)
      (by simp only [List.length_cons, List.length_append]; omega) (by simp) rfl
  simp only [List.nil_append, List.length_nil, List.length_singleton, Nat.zero_add,
    List.singleton_append, List.cons_append] at heq htake hlt hle hzl
  have hres : fts5DequoteBuffer (o :: body ++ 0 :: junk) =
      (z2.set (fts5DequoteLoop (if o = 91 then 93 else o) body).length 0, iIn2) := by
    simp only [fts5DequoteBuffer, List.cons_append, List.getD_cons_zero, heq]
  have hdq : fts5Dequote (o :: body) = fts5DequoteLoop (if o = 91 then 93 else o) body := rfl
  rw [hres, hdq]
  constructor
  · have hL : (fts5DequoteLoop (if o = 91 then 93 else o) body).length < z2.length := by
      rw [hzl]; simp only [List.length_cons, List.length_append]; omega
    rw [List.set_eq_take_cons_drop 0 hL, htake]
    exact cString_append_zero _ _ (dequoteLoop_nulFree _ hq body)
  · simp only [List.length_cons]; omega

/-! ## The assertions of the dequote functions hold in the parse -/

theorem deref_take_of_ne_nil (p : List Nat) (k : Nat) (h : List.take k p ≠ []) :
    deref (List.take k p) = deref p := by
  cases p with
  | nil => simp
  | cons b rest =>
    cases k with
    | zero => exact absurd rfl h
    | succ k => rfl

/-- Every call of `sqlite3Fts5Dequote` made by the parse meets the assertion of line
215: the span does not start with a space. When `fts5Dequote` is reached the span
starts with a single quote, as the assertion of line 173 asks. -/
theorem parse_meets_assertions (z : List Nat) (hz : NulFree z) (n : Nat)
    (args : List Argument) (h : parseConfig (some z) = some (ParseResult.ok n args)) :
    ∀ a ∈ args, fts5_iswhitespace (deref a.span) = false ∧
      (isOpenQuote (deref a.span) = true → deref a.span = 39) := by
  intro a ha
  rcases parseLoop_provenance _ z 0 [] n args hz h a ha with hnil | ⟨p2, q, hn2, h32, hsc, rfl⟩
  · exact absurd hnil (List.not_mem_nil a)
  · obtain ⟨-, hne, hbw, -⟩ := scanArgument_ptr p2 q hn2 hsc
    have hd := deref_take_of_ne_nil p2 _ hne
    constructor
    · show fts5_iswhitespace (deref (List.take (p2.length - q.length) p2)) = false
      rw [hd]
      simpa [fts5_iswhitespace] using h32
    · intro hoq
      show deref (List.take (p2.length - q.length) p2) = 39
      by_contra h39
      rw [hd] at h39
      have := (bareword_byte (hbw h39)).2.2.2
      rw [this] at hoq
      exact absurd hoq (by decide)

/-! ## Lemmas on the blob and numeric branches of the literal scan -/

theorem hexRun_eq_dropWhile (l : List Nat) : hexRun l = l.dropWhile isHexDigit := by
  induction l with
  | nil => rfl
  | cons b rest ih =>
    by_cases h : (97 ≤ b ∧ b ≤ 102) ∨ (65 ≤ b ∧ b ≤ 70) ∨ (48 ≤ b ∧ b ≤ 57)
    · have h2 : isHexDigit b = true := by
        simp only [isHexDigit, decide_eq_true_eq]
        rcases h with h | h | h
        · exact Or.inr (Or.inl h)
        · exact Or.inr (Or.inr h)
        · exact Or.inl h
      simp only [hexRun, h, if_true, List.dropWhile_cons, h2, ih]
    · have h2 : isHexDigit b = false := by
        simp only [isHexDigit, decide_eq_false_iff_not]
        intro h3
        apply h
        rcases h3 with h3 | h3 | h3
        · exact Or.inr (Or.inr h3)
        · exact Or.inl h3
        · exact Or.inr (Or.inl h3)
      simp [hexRun, h, List.dropWhile_cons, h2]

theorem length_sub_dropWhile (f : Nat → Bool) (l : List Nat) :
    l.length - (l.dropWhile f).length = (l.takeWhile f).length := by
  have h := congrArg List.length (List.takeWhile_append_dropWhile f l)
  simp only [List.length_append] at h
  omega

theorem length_dropWhile_le (f : Nat → Bool) (l : List Nat) :
    (l.dropWhile f).length ≤ l.length := by
  have h := congrArg List.length (List.takeWhile_append_dropWhile f l)
  simp only [List.length_append] at h
  omega

set_option maxRecDepth 100000 in
/-- The bareword test, byte by byte. -/
theorem isBareword_table : ∀ n, n < 256 → (sqlite3Fts5IsBareword n = true ↔
    (128 ≤ n ∨ (65 ≤ n ∧ n ≤ 90) ∨ (97 ≤ n ∧ n ≤ 122) ∨ (48 ≤ n ∧ n ≤ 57) ∨
      n = 95 ∨ n = 26)) := by
  decide

theorem digitRun_suffix (p : List Nat) : digitRun p <:+ p := by
  induction p with
  | nil => exact List.suffix_refl _
  | cons b rest ih =>
    by_cases h : fts5_isdigit b = true
    · simp only [digitRun, h, if_true]
      exact ih.trans (List.suffix_cons b rest)
    · simp only [digitRun, h]
      exact List.suffix_refl _

theorem digitRun_of_not_digit (p : List Nat) (h : fts5_isdigit (deref p) = false) :
    digitRun p = p := by
  cases p with
  | nil => rfl
  | cons b rest =>
    have hb : fts5_isdigit b = false := h
    simp [digitRun, hb]

theorem digitRun_shorter (p : List Nat) (h : fts5_isdigit (deref p) = true) :
    (digitRun p).length < p.length := by
  cases p with
  | nil => exact absurd h (by decide)
  | cons b rest =>
    have hb : fts5_isdigit b = true := h
    have := (digitRun_suffix rest).length_le
    simp only [digitRun, hb, if_true, List.length_cons]
    omega

/-! ## Lemmas on the driver -/

/-- When `createTokenizer` fails it has set one of its own four messages. -/
theorem createTokenizer_failure_message (fts5ApiPtr : Option fts5_api)
    (tokenizerName tokenizeParam : Option (List Nat)) (zErr : Option ErrMsg)
    (calls : List ApiCall) (pTokenizer : Option Fts5Tokenizer)
    (h : createTokenizer fts5ApiPtr tokenizerName tokenizeParam =
      some (Created.done false zErr calls pTokenizer)) :
    zErr = some ErrMsg.noApi ∨ zErr = some ErrMsg.parseError ∨
    zErr = some (ErrMsg.couldNotFind tokenizerName) ∨
    zErr = some (ErrMsg.couldNotCreate tokenizeParam) := by
  cases fts5ApiPtr with
  | none =>
    simp only [createTokenizer, Option.some.injEq, Created.done.injEq] at h
    exact Or.inl h.2.1.symm
  | some api =>
    simp only [createTokenizer] at h
    cases hp : parseConfig tokenizeParam with
    | none => simp [hp] at h
    | some r =>
      cases r with
      | overrun => simp [hp] at h
      | parseError =>
        simp only [hp, Option.some.injEq, Created.done.injEq] at h
        exact Or.inr (Or.inl h.2.1.symm)
      | ok nArg azArg =>
        simp only [hp] at h
        cases hf : api.xFindTokenizer tokenizerName with
        | none =>
          simp only [hf, Option.some.injEq, Created.done.injEq] at h
          exact Or.inr (Or.inr (Or.inl h.2.1.symm))
        | some tokenizer =>
          simp only [hf] at h
          cases hc : tokenizer.xCreate (argTexts azArg) nArg with
          | none =>
            simp only [hc, Option.some.injEq, Created.done.injEq] at h
            exact Or.inr (Or.inr (Or.inr h.2.1.symm))
          | some pTok =>
            simp [hc] at h

/-- With an argument count outside 1..3 the function sets the error "Invalid amount of
arguments" first and then goes on: whenever it returns, a later result call has
set another value. -/
theorem tokenizeSqlFunc_bad_argc (fts5ApiPtr : Option fts5_api) (argv : List SqlValue)
    (hargc : argv.length > 3 ∨ argv.length < 1) (results : List ResultCall)
    (calls : List ApiCall)
    (h : tokenizeSqlFunc fts5ApiPtr argv = some (Ran.done results calls)) :
    results.head? = some (ResultCall.error ErrMsg.invalidArguments) ∧
    results.getLast? ≠ some (ResultCall.error ErrMsg.invalidArguments) := by
  simp only [tokenizeSqlFunc, hargc, if_true] at h
  cases hc : createTokenizer fts5ApiPtr (tokenizerNameOf argv) (tokenizerParamOf argv) with
  | none => simp [hc] at h
  | some created =>
    cases created with
    | overrun => simp [hc] at h
    | done rcOk zErr calls2 pTokenizer =>
      cases rcOk with
      | false =>
        simp only [hc, Option.some.injEq, Ran.done.injEq] at h
        obtain ⟨hres, -⟩ := h
        subst hres
        refine ⟨rfl, ?_⟩
        rcases createTokenizer_failure_message _ _ _ _ _ _ hc with hz | hz | hz | hz <;>
          simp [hz]
      | true =>
        simp only [hc] at h
        cases pTokenizer with
        | none => simp at h
        | some tokenizer =>
          cases hin : inputValueOf argv with
          | none => simp [hin] at h
          | some zIn =>
            simp only [hin, Option.some.injEq, Ran.done.injEq] at h
            obtain ⟨hres, -⟩ := h
            subst hres
            exact ⟨rfl, by simp⟩

/-! ## Where the literal scan leaves the string -/

theorem quotedRun_overrun_iff (X : List Nat) : quotedRun X = Cursor.overrun ↔ X = [] := by
  induction X using quotedRun.induct with
  | case1 => simp [quotedRun]
  | case2 => rw [quotedRun_close [] (by decide)]; simp
  | case3 b rest hb => rw [quotedRun_close (b :: rest) hb]; simp
  | case4 b rest hb hd =>
    have hb2 : b = 39 := not_not.mp hb
    subst hb2
    rw [quotedRun_escaped_end rest hd]; simp
  | case5 b rest hb hd ih =>
    have hb2 : b = 39 := not_not.mp hb
    subst hb2
    rw [quotedRun_escaped rest hd, ih]
    constructor
    · rintro rfl; exact absurd rfl hd
    · intro h; exact absurd h (by simp)
  | case6 b rest hb hd => rw [quotedRun_other_end b rest hb hd]; simp
  | case7 b rest hb hd ih =>
    rw [quotedRun_other b rest hb hd, ih]
    constructor
    · rintro rfl; exact absurd rfl hd
    · intro h; exact absurd h (by simp)

theorem quotedRun_suffix (X : List Nat) : ∀ q : List Nat,
    quotedRun X = Cursor.ptr q → q <:+ X := by
  induction X using quotedRun.induct with
  | case1 => intro q h; simp [quotedRun] at h
  | case2 =>
    intro q h
    rw [quotedRun_close [] (by decide), Cursor.ptr.injEq] at h
    subst h
    exact List.nil_suffix
  | case3 b rest hb =>
    intro q h
    rw [quotedRun_close (b :: rest) hb, Cursor.ptr.injEq] at h
    subst h
    exact List.suffix_cons _ _
  | case4 b rest hb hd =>
    intro q h
    have hb2 : b = 39 := not_not.mp hb
    subst hb2
    rw [quotedRun_escaped_end rest hd] at h
    exact absurd h (by simp)
  | case5 b rest hb hd ih =>
    intro q h
    have hb2 : b = 39 := not_not.mp hb
    subst hb2
    rw [quotedRun_escaped rest hd] at h
    exact ((ih q h).trans (List.suffix_cons _ _)).trans (List.suffix_cons _ _)
  | case6 b rest hb hd =>
    intro q h
    rw [quotedRun_other_end b rest hb hd] at h
    exact absurd h (by simp)
  | case7 b rest hb hd ih =>
    intro q h
    rw [quotedRun_other b rest hb hd] at h
    exact (ih q h).trans (List.suffix_cons _ _)

theorem skipLiteral_number_eq (pIn : List Nat)
    (hk : ¬ (deref pIn = 110 ∨ deref pIn = 78)) (hx : ¬ (deref pIn = 120 ∨ deref pIn = 88))
    (h39 : ¬ deref pIn = 39) :
    fts5ConfigSkipLiteral pIn =
      if (numberRun pIn).length = pIn.length then Cursor.null
      else Cursor.ptr (numberRun pIn) := by
  simp only [fts5ConfigSkipLiteral, hk, hx, h39, if_false, numberRun]

theorem numberRun_suffix (pIn : List Nat) : numberRun pIn <:+ pIn := by
  have key : ∀ p0 : List Nat, p0 <:+ pIn →
      (if deref (digitRun p0) = 46 ∧ fts5_isdigit (deref (digitRun p0).tail) = true then
        digitRun ((digitRun p0).drop 2) else digitRun p0) <:+ pIn := by
    intro p0 hs0
    have hs1 := (digitRun_suffix p0).trans hs0
    split
    · exact ((digitRun_suffix _).trans (List.drop_suffix 2 _)).trans hs1
    · exact hs1
  by_cases hsign : deref pIn = 43 ∨ deref pIn = 45
  · simp only [numberRun, hsign, if_true]
    exact key pIn.tail (List.tail_suffix _)
  · simp only [numberRun, hsign, if_false]
    exact key pIn (List.suffix_refl _)

theorem skipLiteral_blob_eq (pIn : List Nat)
    (hk : ¬ (deref pIn = 110 ∨ deref pIn = 78)) (hx : deref pIn = 120 ∨ deref pIn = 88) :
    fts5ConfigSkipLiteral pIn =
      if deref pIn.tail = 39 then
        if deref (hexRun pIn.tail.tail) = 39 ∧
            (pIn.length - (hexRun pIn.tail.tail).length) % 2 = 0
        then Cursor.ptr (hexRun pIn.tail.tail).tail else Cursor.null
      else Cursor.null := by
  simp only [fts5ConfigSkipLiteral, hk, hx, if_false, if_true]

/-- The literal scan reads past the terminator on exactly one input: the single quote
that is directly followed by the terminator. -/
theorem skipLiteral_overrun_iff (pIn : List Nat) :
    fts5ConfigSkipLiteral pIn = Cursor.overrun ↔ pIn = [39] := by
  constructor
  · intro h
    by_cases hk : deref pIn = 110 ∨ deref pIn = 78
    · simp only [fts5ConfigSkipLiteral, hk, if_true] at h
      split at h <;> simp at h
    · by_cases hx : deref pIn = 120 ∨ deref pIn = 88
      · rw [skipLiteral_blob_eq pIn hk hx] at h
        split at h
        · split at h <;> simp at h
        · simp at h
      · by_cases h39 : deref pIn = 39
        · simp only [fts5ConfigSkipLiteral, hk, hx, h39, if_false, if_true] at h
          have hX := (quotedRun_overrun_iff pIn.tail).mp h
          cases pIn with
          | nil => exact absurd h39 (by decide)
          | cons b X =>
            have hb : b = 39 := h39
            have hX2 : X = [] := hX
            rw [hb, hX2]
        · rw [skipLiteral_number_eq pIn hk hx h39] at h
          split at h <;> simp at h
  · rintro rfl
    decide

/-- Whenever the literal scan returns a cursor, the cursor lies within the string,
after at least one byte. -/
theorem skipLiteral_ptr_suffix (pIn q : List Nat)
    (h : fts5ConfigSkipLiteral pIn = Cursor.ptr q) : q <:+ pIn ∧ q.length < pIn.length := by
  by_cases hk : deref pIn = 110 ∨ deref pIn = 78
  · simp only [fts5ConfigSkipLiteral, hk, if_true] at h
    split at h
    · rename_i hkw
      simp only [Cursor.ptr.injEq] at h
      subst h
      refine ⟨List.drop_suffix 4 pIn, ?_⟩
      have h4 : (pIn.take 4).length = 4 := by
        have := congrArg List.length (beq_iff_eq.mp hkw)
        simpa using this
      simp only [List.length_take] at h4
      simp only [List.length_drop]
      omega
    · simp at h
  · by_cases hx : deref pIn = 120 ∨ deref pIn = 88
    · rw [skipLiteral_blob_eq pIn hk hx] at h
      split at h
      · split at h
        · rename_i hq hcl
          simp only [Cursor.ptr.injEq] at h
          subst h
          have hs1 : hexRun pIn.tail.tail <:+ pIn := by
            rw [hexRun_eq_dropWhile]
            exact ((List.dropWhile_suffix _).trans (List.tail_suffix _)).trans
              (List.tail_suffix _)
          have hne : hexRun pIn.tail.tail ≠ [] := by
            intro hnil
            rw [hnil] at hcl
            exact absurd hcl.1 (by decide)
          have hs2 : (hexRun pIn.tail.tail).tail <:+ pIn := (List.tail_suffix _).trans hs1
          refine ⟨hs2, ?_⟩
          have h1 := hs1.length_le
          have h2 : 0 < (hexRun pIn.tail.tail).length := List.length_pos.mpr hne
          simp only [List.length_tail]
          omega
        · simp at h
      · simp at h
    · by_cases h39 : deref pIn = 39
      · simp only [fts5ConfigSkipLiteral, hk, hx, h39, if_false, if_true] at h
        cases pIn with
        | nil => exact absurd h39 (by decide)
        | cons b X =>
          have hs := quotedRun_suffix X q h
          have hl := quotedRun_shorter X q h
          exact ⟨hs.trans (List.suffix_cons _ _), by simp only [List.length_cons]; omega⟩
      · rw [skipLiteral_number_eq pIn hk hx h39] at h
        split at h
        · simp at h
        · rename_i hne
          simp only [Cursor.ptr.injEq] at h
          subst h
          have hs := numberRun_suffix pIn
          have := hs.length_le
          exact ⟨hs, by omega⟩

/-! ## Further lemmas on the parse loop -/

/-- A successful parse keeps the arguments it started with and adds one per round; it
adds at least one when the loop is entered. -/
theorem parseLoop_ok_extends : ∀ (fuel : Nat) (p : List Nat) (n : Nat)
    (acc : List Argument) (m : Nat) (args : List Argument),
    parseLoop fuel p n acc = some (ParseResult.ok m args) →
    ∃ more, args = acc ++ more ∧ m = n + more.length ∧ (deref p ≠ 0 → more ≠ []) := by
  intro fuel
  induction fuel with
  | zero => intro p n acc m args h; simp [parseLoop] at h
  | succ f ih =>
    intro p n acc m args h
    by_cases hp0 : deref p = 0
    · simp only [parseLoop, hp0, if_true, Option.some.injEq, ParseResult.ok.injEq] at h
      exact ⟨[], by simp [h.2], by simp [h.1], fun hne => absurd hp0 hne⟩
    · simp only [parseLoop, hp0, if_false] at h
      cases hsc : scanArgument (fts5ConfigSkipWhitespace p) with
      | null => simp [hsc] at h
      | overrun => simp [hsc] at h
      | ptr q =>
        simp only [hsc] at h
        obtain ⟨more, hargs, hm, -⟩ := ih _ _ _ m args h
        rw [List.append_assoc] at hargs
        refine ⟨_, hargs, ?_, fun _ => by simp⟩
        rw [hm]
        simp only [List.singleton_append, List.length_cons]
        omega

theorem scanArgument_eq_quotedOnly (p2 : List Nat) :
    scanArgument p2 = scanArgumentQuotedOnly p2 := by
  by_cases h39 : deref p2 = 39
  · cases p2 with
    | nil => exact absurd h39 (by decide)
    | cons b X =>
      have hb : b = 39 := h39
      subst hb
      simp only [scanArgument, scanArgumentQuotedOnly, h39, if_true, skipLiteral_quote,
        skipQuotedOnly, List.tail_cons]
  · simp only [scanArgument, scanArgumentQuotedOnly, h39, if_false]

theorem parseLoop_eq_quotedOnly : ∀ (fuel : Nat) (p : List Nat) (n : Nat)
    (acc : List Argument), parseLoop fuel p n acc = parseLoopQuotedOnly fuel p n acc := by
  intro fuel
  induction fuel with
  | zero => intro p n acc; rfl
  | succ f ih =>
    intro p n acc
    simp only [parseLoop, parseLoopQuotedOnly, scanArgument_eq_quotedOnly]
    split
    · rfl
    · split
      · rfl
      · rfl
      · exact ih _ _ _

/-! ## Bounds of the writes of the parse loop -/

theorem cString_of_nulFree (z : List Nat) (hz : NulFree z) : cString z = z := by
  induction z with
  | nil => rfl
  | cons x z ih =>
    have hx : (x != 0) = true := by simp [hz x (by simp)]
    have hz2 : NulFree z := fun y hy => hz y (by simp [hy])
    have h2 := ih hz2
    simp only [cString] at h2 ⊢
    rw [List.takeWhile_cons, hx, if_pos rfl, h2]

theorem strlen_of_nulFree (z : List Nat) (hz : NulFree z) : strlen z = z.length := by
  simp only [strlen, cString_of_nulFree z hz]

/-- As long as the scan stays inside the string, every round of the parse loop copies
at least one byte, and its writes stay inside allocations made for a string of `L`
bytes, where `L` bounds what is left of the string at the start. -/
theorem parseWrites_inBounds (L : Nat) : ∀ (fuel : Nat) (p : List Nat) (nArg pSpace : Nat),
    nArg + p.length ≤ L → pSpace + 2 * p.length ≤ 2 * L →
    ∀ w ∈ parseWrites fuel p nArg pSpace, 0 < w.nCopy ∧ w.inBounds L = true := by
  intro fuel
  induction fuel with
  | zero => intro p nArg pSpace _ _ w hw; simp [parseWrites] at hw
  | succ f ih =>
    intro p nArg pSpace h1 h2 w hw
    by_cases hp0 : deref p = 0
    · simp [parseWrites, hp0] at hw
    · simp only [parseWrites, hp0, if_false] at hw
      cases hsc : scanArgument (fts5ConfigSkipWhitespace p) with
      | null => simp [hsc] at hw
      | overrun => simp [hsc] at hw
      | ptr q =>
        simp only [hsc] at hw
        have hq := scanArgument_shorter _ q hsc
        have hp2 := (skipWhitespace_suffix p).length_le
        have hq2 := (skipWhitespace_suffix q).length_le
        rcases List.mem_cons.mp hw with rfl | hw2
        · refine ⟨by simp only; omega, ?_⟩
          simp only [ArgWrite.inBounds, Bool.and_eq_true, decide_eq_true_eq]
          omega
        · exact ih _ _ _ (by omega) (by omega) w hw2

theorem parseWrites_length_le : ∀ (fuel : Nat) (p : List Nat) (nArg pSpace : Nat),
    (parseWrites fuel p nArg pSpace).length ≤ p.length := by
  intro fuel
  induction fuel with
  | zero => intro p nArg pSpace; simp [parseWrites]
  | succ f ih =>
    intro p nArg pSpace
    by_cases hp0 : deref p = 0
    · simp [parseWrites, hp0]
    · simp only [parseWrites, hp0, if_false]
      cases hsc : scanArgument (fts5ConfigSkipWhitespace p) with
      | null => simp
      | overrun => simp
      | ptr q =>
        have hq := scanArgument_shorter _ q hsc
        have hp2 := (skipWhitespace_suffix p).length_le
        have hq2 := (skipWhitespace_suffix q).length_le
        have := ih (fts5ConfigSkipWhitespace q) (nArg + 1)
          (pSpace + ((fts5ConfigSkipWhitespace p).length - q.length) + 1)
        simp only [List.length_cons]
        omega

/-- For a buffer without a NUL before its terminator, and as long as the scan stays
inside the string: the loop makes at most `strlen` rounds, each copies at least one
byte, and every write stays inside the allocations. -/
theorem configWrites_inBounds (z : List Nat) (hz : NulFree z) :
    (configWrites z).length ≤ strlen z ∧
    ∀ w ∈ configWrites z, 0 < w.nCopy ∧ w.inBounds (strlen z) = true := by
  rw [strlen_of_nulFree z hz]
  exact ⟨parseWrites_length_le _ z 0 0,
    parseWrites_inBounds z.length _ z 0 0 (by omega) (by omega)⟩

/-! ## The numeric branch of the literal scan in closed form -/

/-- The numeric branch of the literal scan returns the null cursor exactly when it has
consumed no byte at all: the input starts neither with a sign, nor with a digit, nor
with a point that is followed by a digit. -/
theorem numberBranch_null_iff (pIn : List Nat)
    (h : deref pIn ≠ 110 ∧ deref pIn ≠ 78 ∧ deref pIn ≠ 120 ∧ deref pIn ≠ 88 ∧
      deref pIn ≠ 39) :
    fts5ConfigSkipLiteral pIn = Cursor.null ↔
      (deref pIn ≠ 43 ∧ deref pIn ≠ 45 ∧ fts5_isdigit (deref pIn) = false ∧
        ¬ (deref pIn = 46 ∧ fts5_isdigit (deref pIn.tail) = true)) := by
  obtain ⟨h1, h2, h3, h4, h5⟩ := h
  have key : ∀ p3 : List Nat,
      ((if p3.length = pIn.length then Cursor.null else Cursor.ptr p3) = Cursor.null ↔
        p3.length = pIn.length) := by
    intro p3
    by_cases hl : p3.length = pIn.length <;> simp [hl]
  simp only [fts5ConfigSkipLiteral, h1, h2, h3, h4, h5, or_self, if_false, key]
  by_cases hsign : deref pIn = 43 ∨ deref pIn = 45
  · -- a sign is consumed
    have hne : pIn ≠ [] := by
      rintro rfl
      rcases hsign with hs | hs <;> exact absurd hs (by decide)
    have htl : pIn.tail.length < pIn.length := by
      cases pIn with
      | nil => exact absurd rfl hne
      | cons b t => simp
    have hd := (digitRun_suffix pIn.tail).length_le
    have hlt : (if deref (digitRun pIn.tail) = 46 ∧
        fts5_isdigit (deref (digitRun pIn.tail).tail) = true then
        digitRun ((digitRun pIn.tail).drop 2) else digitRun pIn.tail).length
        < pIn.length := by
      split
      · have h6 := (digitRun_suffix ((digitRun pIn.tail).drop 2)).length_le
        simp only [List.length_drop] at h6
        omega
      · omega
    simp only [hsign, if_true]
    constructor
    · intro heq; omega
    · rintro ⟨n1, n2, -, -⟩
      rcases hsign with hs | hs
      · exact absurd hs n1
      · exact absurd hs n2
  · have n1 : deref pIn ≠ 43 := fun hs => hsign (Or.inl hs)
    have n2 : deref pIn ≠ 45 := fun hs => hsign (Or.inr hs)
    simp only [hsign, if_false]
    by_cases hdig : fts5_isdigit (deref pIn) = true
    · have hsh := digitRun_shorter pIn hdig
      have hlt : (if deref (digitRun pIn) = 46 ∧
          fts5_isdigit (deref (digitRun pIn).tail) = true then
          digitRun ((digitRun pIn).drop 2) else digitRun pIn).length < pIn.length := by
        split
        · have h6 := (digitRun_suffix ((digitRun pIn).drop 2)).length_le
          simp only [List.length_drop] at h6
          omega
        · exact hsh
      constructor
      · intro heq; omega
      · rintro ⟨-, -, n3, -⟩
        rw [hdig] at n3
        exact absurd n3 (by decide)
    · have hdig2 : fts5_isdigit (deref pIn) = false := by
        cases hv : fts5_isdigit (deref pIn) with
        | false => rfl
        | true => exact absurd hv hdig
      rw [digitRun_of_not_digit pIn hdig2]
      by_cases hpt : deref pIn = 46 ∧ fts5_isdigit (deref pIn.tail) = true
      · simp only [hpt, and_self, if_true]
        have hne : pIn ≠ [] := by
          rintro rfl
          exact absurd hpt.1 (by decide)
        have h6 := (digitRun_suffix (pIn.drop 2)).length_le
        have hpos : 0 < pIn.length := List.length_pos.mpr hne
        simp only [List.length_drop] at h6
        constructor
        · intro heq; omega
        · rintro ⟨-, -, -, n4⟩
          exact absurd trivial n4
      · simp only [hpt, if_false, true_iff]
        exact ⟨n1, n2, hdig2, not_false⟩

theorem digitRun_eq_drop (l : List Nat) : digitRun l = l.drop (digitCount l) := by
  induction l with
  | nil => rfl
  | cons b rest ih =>
    by_cases h : fts5_isdigit b = true
    · simp only [digitRun, h, if_true, digitCount, List.takeWhile_cons, List.length_cons,
        List.drop_succ_cons]
      exact ih
    · simp [digitRun, h, digitCount, List.takeWhile_cons]

theorem numberRun_eq_drop (pIn : List Nat) :
    numberRun pIn = pIn.drop (numericLength pIn) := by
  have hp1 : (if deref pIn = 43 ∨ deref pIn = 45 then pIn.tail else pIn) =
      pIn.drop (if deref pIn = 43 ∨ deref pIn = 45 then 1 else 0) := by
    split
    · cases pIn <;> simp
    · simp
  simp only [numberRun, numericLength, hp1, digitRun_eq_drop, List.drop_drop]
  generalize (if deref pIn = 43 ∨ deref pIn = 45 then 1 else 0) = s
  split
  · congr 1
    omega
  · simp

theorem numericLength_eq_zero_of_nil : numericLength [] = 0 := by decide

/-- The numeric branch in closed form: the null cursor when nothing is consumed, else
the cursor after the consumed bytes. -/
theorem skipLiteral_number_closed (pIn : List Nat)
    (h : deref pIn ≠ 110 ∧ deref pIn ≠ 78 ∧ deref pIn ≠ 120 ∧ deref pIn ≠ 88 ∧
      deref pIn ≠ 39) :
    fts5ConfigSkipLiteral pIn =
      (if numericLength pIn = 0 then Cursor.null
        else Cursor.ptr (pIn.drop (numericLength pIn))) := by
  obtain ⟨h1, h2, h3, h4, h5⟩ := h
  rw [skipLiteral_number_eq pIn (by simp [h1, h2]) (by simp [h3, h4]) h5, numberRun_eq_drop]
  cases pIn with
  | nil => simp [numericLength_eq_zero_of_nil]
  | cons b rest =>
    by_cases hz : numericLength (b :: rest) = 0
    · simp [hz]
    · have hne : (List.drop (numericLength (b :: rest)) (b :: rest)).length ≠
          (b :: rest).length := by
        simp only [List.length_drop, List.length_cons]
        omega
      simp only [hne, if_false, hz]

theorem numericLength_lone_sign (pIn : List Nat) (hsign : deref pIn = 43 ∨ deref pIn = 45)
    (hnd : fts5_isdigit (deref pIn.tail) = false)
    (hnp : ¬ (deref pIn.tail = 46 ∧ fts5_isdigit (deref pIn.tail.tail) = true)) :
    numericLength pIn = 1 ∧ pIn.drop 1 = pIn.tail := by
  cases pIn with
  | nil => rcases hsign with hs | hs <;> exact absurd hs (by decide)
  | cons b rest =>
    have hdc : digitCount rest = 0 := by
      cases rest with
      | nil => rfl
      | cons c r =>
        have hc : fts5_isdigit c = false := hnd
        simp [digitCount, List.takeWhile_cons, hc]
    have hnp2 : ¬ (deref rest = 46 ∧ fts5_isdigit (deref rest.tail) = true) := hnp
    refine ⟨?_, rfl⟩
    simp only [numericLength, hsign, if_true, List.drop_succ_cons, List.drop_zero, hdc,
      Nat.add_zero, hnp2, if_false]

/-! ## Empty arguments of a parse that stays inside the string -/

/-- On a successful parse that the model follows inside a string without a NUL byte,
an argument is empty exactly when its scanned span is the empty quoted literal (two
single quotes). -/
theorem parse_args_nonempty (z : List Nat) (hz : NulFree z) (n : Nat)
    (args : List Argument) (h : parseConfig (some z) = some (ParseResult.ok n args)) :
    ∀ a ∈ args, (a.text = [] ↔ a.span = [39, 39]) := by
  intro a ha
  rcases parseLoop_provenance _ z 0 [] n args hz h a ha with hnil | ⟨p2, q, hn2, -, hsc, rfl⟩
  · exact absurd hnil (List.not_mem_nil a)
  · constructor
    · exact (scanArgument_ptr p2 q hn2 hsc).2.2.2
    · intro hs
      have hs2 : List.take (p2.length - q.length) p2 = [39, 39] := hs
      show sqlite3Fts5Dequote (List.take (p2.length - q.length) p2) = []
      rw [hs2]
      decide

/-- An instance: "a ''" parses to the arguments "a" and ""; the second one is empty
and its span is the empty quoted literal. -/
theorem parse_args_nonempty_witness :
    (Argument.mk (bytes "''") []).text = [] ↔ (Argument.mk (bytes "''") []).span = [39, 39] :=
  parse_args_nonempty (bytes "a ''") (by decide) 2
    [Argument.mk (bytes "a") (bytes "a"), Argument.mk (bytes "''") []] (by decide)
    (Argument.mk (bytes "''") []) (by decide)

/-! ## Properties of the configuration-string parse -/

/-- C1: a configuration string made of n >= 1 arguments, each written as a
single-quoted SQL literal or (when it is a non-empty run of bareword bytes) as itself,
separated by one or more spaces, with optional leading and trailing spaces, parses
successfully to exactly the argument values in textual order, with argument count n. -/
theorem parse_rendered (lead : Nat) (rs : List Rendering) (hne : rs ≠ [])
    (hwf : WellRendered rs) :
    parseConfig (some (List.replicate lead 32 ++ renderArgs rs)) =
      some (ParseResult.ok rs.length (rs.map expectedArg)) ∧
    argTexts (rs.map expectedArg) = rs.map Rendering.w := by
  constructor
  · obtain ⟨r, rs2, rfl⟩ := List.exists_cons_of_ne_nil hne
    have hlen := length_le_renderArgs (r :: rs2) hwf
    simp only [parseConfig]
    rw [parseLoop_rendered_step _ lead r rs2 0 [] hwf]
    rw [parseLoop_rendered rs2 hwf.2.2.2 _ 1 _ (by
      simp only [List.length_append, List.length_replicate, List.length_cons] at hlen ⊢
      omega)]
    simp [Nat.add_comm 1]
  · simp [argTexts, expectedArg]

/-- C1, witnesses: "porter ascii" and "unicode61 'remove_diacritics' '2'". -/
theorem parse_rendered_witness :
    (parseConfig (some (bytes "porter ascii")) =
        some (ParseResult.ok 2 [⟨bytes "porter", bytes "porter"⟩,
          ⟨bytes "ascii", bytes "ascii"⟩]) ∧
      argTexts [⟨bytes "porter", bytes "porter"⟩, ⟨bytes "ascii", bytes "ascii"⟩] =
        [bytes "porter", bytes "ascii"]) ∧
    (parseConfig (some (bytes "unicode61 'remove_diacritics' '2'")) =
        some (ParseResult.ok 3 [⟨bytes "unicode61", bytes "unicode61"⟩,
          ⟨bytes "'remove_diacritics'", bytes "remove_diacritics"⟩,
          ⟨bytes "'2'", bytes "2"⟩]) ∧
      argTexts [⟨bytes "unicode61", bytes "unicode61"⟩,
          ⟨bytes "'remove_diacritics'", bytes "remove_diacritics"⟩,
          ⟨bytes "'2'", bytes "2"⟩] =
        [bytes "unicode61", bytes "remove_diacritics", bytes "2"]) :=
  ⟨parse_rendered 0 [⟨bytes "porter", false, 1⟩, ⟨bytes "ascii", false, 0⟩]
      (by simp) (by decide),
   parse_rendered 0 [⟨bytes "unicode61", false, 1⟩, ⟨bytes "remove_diacritics", true, 1⟩,
      ⟨bytes "2", true, 0⟩] (by simp) (by decide)⟩


/-- C4, the failing input: on a configuration string that ends in a lone single quote
the literal scan steps over the terminator and reads the byte behind it, so the outcome
is not the parse error but depends on what lies behind the string: when the buffer goes
on behind the NUL with "a'" (a text value with an embedded NUL), the parse of the
string "'" succeeds with one empty argument. The other two witnesses of the claim do
fail with the parse error. -/
theorem parse_lone_quote_overrun :
    fts5ConfigSkipLiteral (bytes "'") = Cursor.overrun ∧
    parseConfig (some (bytes "'")) = some ParseResult.overrun ∧
    parseConfig (some (bytes "bad '")) = some ParseResult.overrun ∧
    parseConfig (some (bytes "'" ++ 0 :: bytes "a'")) =
      some (ParseResult.ok 1 [Argument.mk (bytes "'" ++ 0 :: bytes "a'") []]) ∧
    parseConfig (some (bytes "bad 'unterminated")) = some ParseResult.parseError ∧
    parseConfig (some (bytes "bad'quote")) = some ParseResult.parseError := by
  decide

/-- C5: an absent configuration string and the zero-length configuration string both
parse to the empty argument list with argument count 0 and no error. -/
theorem parse_absent_or_empty :
    parseConfig none = some (ParseResult.ok 0 []) ∧
    parseConfig (some []) = some (ParseResult.ok 0 []) :=
  ⟨rfl, rfl⟩

/-- C6: a configuration string that contains no single quote and contains a byte that
is neither a space (0x20) nor a bareword byte fails with the parse error. -/
theorem parse_bad_byte (z : List Nat) (hz : NulFree z) (hq : 39 ∉ z)
    (hbad : ∃ b ∈ z, b ≠ 32 ∧ sqlite3Fts5IsBareword b = false) :
    parseConfig (some z) = some ParseResult.parseError :=
  parseLoop_bad_byte (z.length + 1) z 0 [] (Nat.lt_succ_self _) hz hq hbad

/-- C6, witness: "porter\tascii" (a tab between two barewords). -/
theorem parse_bad_byte_witness :
    parseConfig (some [112, 111, 114, 116, 101, 114, 9, 97, 115, 99, 105, 105]) =
      some ParseResult.parseError :=
  parse_bad_byte [112, 111, 114, 116, 101, 114, 9, 97, 115, 99, 105, 105]
    (by decide) (by decide) ⟨9, by decide, by decide, by decide⟩

/-- C7: dequote undoes quoting, for each of the four open-quote characters and every
NUL-free string, and leaves a string unchanged when its first byte is none of the four
open-quote characters. -/
theorem dequote_reference (o : Nat) (t z : List Nat)
    (ho : o = 91 ∨ o = 39 ∨ o = 34 ∨ o = 96) (ht : NulFree t)
    (hz : deref z ≠ 91 ∧ deref z ≠ 39 ∧ deref z ≠ 34 ∧ deref z ≠ 96) :
    sqlite3Fts5Dequote (quoteWith o t) = t ∧ sqlite3Fts5Dequote z = z := by
  refine ⟨dequote_quoteWith o ho t ht, ?_⟩
  obtain ⟨h1, h2, h3, h4⟩ := hz
  simp [sqlite3Fts5Dequote, isOpenQuote, h1, h2, h3, h4]

/-- C7, witnesses: dequote("'a''b'") = "a'b", dequote("[a]") = "a",
dequote("abc") = "abc". -/
theorem dequote_reference_witness :
    (sqlite3Fts5Dequote (bytes "'a''b'") = bytes "a'b" ∧
      sqlite3Fts5Dequote (bytes "abc") = bytes "abc") ∧
    (sqlite3Fts5Dequote (bytes "[a]") = bytes "a" ∧
      sqlite3Fts5Dequote (bytes "abc") = bytes "abc") :=
  ⟨dequote_reference 39 (bytes "a'b") (bytes "abc") (by decide) (by decide) (by decide),
   dequote_reference 91 (bytes "a") (bytes "abc") (by decide) (by decide) (by decide)⟩

/-- C9, the failing input: the configuration string "'" (a lone single quote, length
1), received in a buffer that goes on behind the terminator with "a'" (a text value
with an embedded NUL). The literal scan steps over the terminator and finds the quote
behind it, so the parse succeeds with one argument: that argument is the empty string,
and its scanned span is the four bytes quote, NUL, "a", quote (up to the terminator: one
quote), not the empty quoted literal. On the string "'" alone the scan reads past the
terminator. -/
theorem parse_empty_argument_past_terminator :
    strlen (bytes "'" ++ 0 :: bytes "a'") = 1 ∧
    cString (bytes "'" ++ 0 :: bytes "a'") = bytes "'" ∧
    parseConfig (some (bytes "'" ++ 0 :: bytes "a'")) =
      some (ParseResult.ok 1 [Argument.mk (bytes "'" ++ 0 :: bytes "a'") []]) ∧
    (∃ a ∈ [Argument.mk (bytes "'" ++ 0 :: bytes "a'") []],
      a.text = [] ∧ a.span ≠ [39, 39] ∧ cString a.span ≠ [39, 39]) ∧
    parseConfig (some (bytes "'")) = some ParseResult.overrun :=
  ⟨by decide, by decide, by decide,
    ⟨Argument.mk (bytes "'" ++ 0 :: bytes "a'") [], List.mem_singleton.2 rfl, by decide,
      by decide, by decide⟩,
    by decide⟩

/-- C10, counterexample: the configuration string "'[a]'" parses successfully to the
single argument "[a]", and dequoting that argument again gives "a". -/
theorem parse_redequote_changes :
    parseConfig (some (bytes "'[a]'")) =
      some (ParseResult.ok 1 [Argument.mk (bytes "'[a]'") (bytes "[a]")]) ∧
    sqlite3Fts5Dequote (bytes "[a]") = bytes "a" ∧
    sqlite3Fts5Dequote (bytes "[a]") ≠ bytes "[a]" := by
  decide

/-- C10, amended: on a successful parse of a configuration string, dequoting a
produced argument again returns it unchanged exactly when the argument does not begin
with one of the four open-quote characters; every argument scanned as a bareword (its
span does not open with a single quote) is of that kind. -/
theorem parse_redequote (z : List Nat) (hz : NulFree z) (n : Nat)
    (args : List Argument) (h : parseConfig (some z) = some (ParseResult.ok n args)) :
    ∀ a ∈ args,
      (sqlite3Fts5Dequote a.text = a.text ↔ isOpenQuote (deref a.text) = false) ∧
      (deref a.span ≠ 39 → sqlite3Fts5Dequote a.text = a.text) := by
  intro a ha
  refine ⟨dequote_fixed_iff a.text, ?_⟩
  rcases parseLoop_provenance _ z 0 [] n args hz h a ha with hnil | ⟨p2, q, hn2, -, hsc, rfl⟩
  · exact absurd hnil (List.not_mem_nil a)
  · intro hspan
    obtain ⟨-, hne, hbw, -⟩ := scanArgument_ptr p2 q hn2 hsc
    have hp2 : deref p2 ≠ 39 := by
      intro h39
      apply hspan
      show deref (List.take (p2.length - q.length) p2) = 39
      cases p2 with
      | nil => exact absurd h39 (by decide)
      | cons b rest =>
        cases hk : (b :: rest).length - q.length with
        | zero => rw [hk] at hne; exact absurd rfl hne
        | succ k => exact h39
    have hoq := (bareword_byte (hbw hp2)).2.2.2
    show sqlite3Fts5Dequote (sqlite3Fts5Dequote (List.take (p2.length - q.length) p2)) =
      sqlite3Fts5Dequote (List.take (p2.length - q.length) p2)
    rw [(dequote_fixed_iff _).mpr hoq, (dequote_fixed_iff _).mpr hoq]

/-- C10 amended, witness: "porter '[a]'" parses to "porter" and "[a]"; the first is
unchanged by a second dequote. -/
theorem parse_redequote_witness :
    (sqlite3Fts5Dequote (Argument.mk (bytes "porter") (bytes "porter")).text =
        (Argument.mk (bytes "porter") (bytes "porter")).text ↔
      isOpenQuote (deref (Argument.mk (bytes "porter") (bytes "porter")).text) = false) ∧
    (deref (Argument.mk (bytes "porter") (bytes "porter")).span ≠ 39 →
      sqlite3Fts5Dequote (Argument.mk (bytes "porter") (bytes "porter")).text =
        (Argument.mk (bytes "porter") (bytes "porter")).text) :=
  parse_redequote (bytes "porter '[a]'") (by decide) 2
    [Argument.mk (bytes "porter") (bytes "porter"),
      Argument.mk (bytes "'[a]'") (bytes "[a]")] (by decide)
    (Argument.mk (bytes "porter") (bytes "porter")) (by decide)

/-! ## Properties of the token accumulator -/

/-- C2: a non-empty sequence of at most 256 tokens, delivered in order through the
callback to a fresh list and then collected, gives a token count equal to the number of
tokens and exactly those tokens in emission order, each a copy of the first `length`
bytes of the delivered buffer. -/
theorem accumulate_in_order (emitted : List (List Nat × Nat)) (hne : emitted ≠ [])
    (hmax : emitted.length ≤ MAX_TOKENS) :
    (accumulate emitted).tokenCount = emitted.length ∧
    boundEntries (accumulate emitted) =
      emitted.map (fun t => some (some (t.1.take t.2))) := by
  obtain ⟨t, rest, rfl⟩ := List.exists_cons_of_ne_nil hne
  exact accumulate_fits t rest hmax

/-- C2, witness: "hello", "world" gives ["hello", "world"]. -/
theorem accumulate_in_order_witness :
    (accumulate [(bytes "hello", 5), (bytes "world", 5)]).tokenCount = 2 ∧
    boundEntries (accumulate [(bytes "hello", 5), (bytes "world", 5)]) =
      [some (some (bytes "hello")), some (some (bytes "world"))] :=
  accumulate_in_order [(bytes "hello", 5), (bytes "world", 5)] (by simp) (by decide)

/-- C3, the failing input: with 300 emitted tokens the token count is 257, not 256; the
array holds the first 256 tokens, and the value read for index 256 lies outside it. -/
theorem accumulate_300_tokens :
    (accumulate (List.replicate 300 ([97], 1))).tokenCount = 257 ∧
    (accumulate (List.replicate 300 ([97], 1))).tokens = List.replicate 256 (some [97]) ∧
    boundEntries (accumulate (List.replicate 300 ([97], 1))) =
      List.replicate 256 (some (some [97])) ++ [none] := by
  have hlen : MAX_TOKENS < (List.replicate 300 (([97], 1) : List Nat × Nat)).length := by
    rw [List.length_replicate]; decide
  have h := accumulate_overflow (List.replicate 300 ([97], 1)) hlen
  have ht : List.take MAX_TOKENS (List.replicate 300 (([97], 1) : List Nat × Nat)) =
      List.replicate 256 ([97], 1) := by
    rw [List.take_replicate]; rfl
  rw [ht] at h
  simp only [List.map_replicate] at h
  exact h

/-! ## Properties of the driver -/

/-- C8: argument selection by argument count. With 1 argument the tokenizer name is
"unicode61", the configuration is absent and the input is that argument; with 2 the
name is the first, the configuration is absent and the input is the second; with 3
the name is the first, the configuration the second and the input the third. With an
absent configuration the constructor is called with zero arguments. -/
theorem driver_argument_selection (a b c : SqlValue) (api : fts5_api)
    (tokenizerName : Option (List Nat)) :
    (tokenizerNameOf [a] = some (bytes "unicode61") ∧ tokenizerParamOf [a] = none ∧
      inputValueOf [a] = some a) ∧
    (tokenizerNameOf [a, b] = a ∧ tokenizerParamOf [a, b] = none ∧
      inputValueOf [a, b] = some b) ∧
    (tokenizerNameOf [a, b, c] = a ∧ tokenizerParamOf [a, b, c] = b ∧
      inputValueOf [a, b, c] = some c) ∧
    (createTokenizer (some api) tokenizerName none).map Created.calls =
      some (ApiCall.xFindTokenizer tokenizerName ::
        match api.xFindTokenizer tokenizerName with
        | none => []
        | some _ => [ApiCall.xCreate [] 0]) := by
  refine ⟨⟨rfl, rfl, rfl⟩, ⟨rfl, rfl, rfl⟩, ⟨rfl, rfl, rfl⟩, ?_⟩
  simp only [createTokenizer, parseConfig, argTexts, List.map_nil]
  cases hfind : api.xFindTokenizer tokenizerName with
  | none => rfl
  | some tokenizer =>
    cases hcreate : tokenizer.xCreate [] 0 with
    | none => simp only [hcreate]; rfl
    | some pTokenizer => simp only [hcreate]; rfl

/-! ## Properties of the literal scan and of the byte classes -/

/-- C11: on an input whose first byte is `x` or `X`, the literal scan succeeds if and
only if the second byte is a single quote, the maximal run of hex digits after it is
immediately followed by a single quote, and the run has an even number of digits; the
returned cursor is then the position just after the closing quote. In every other case
the scan returns the null cursor. -/
theorem skipLiteral_blob (x : Nat) (rest : List Nat) (hx : x = 120 ∨ x = 88) :
    fts5ConfigSkipLiteral (x :: rest) =
      if deref rest = 39 ∧ deref (rest.tail.dropWhile isHexDigit) = 39 ∧
          (rest.tail.takeWhile isHexDigit).length % 2 = 0
      then Cursor.ptr (rest.tail.dropWhile isHexDigit).tail else Cursor.null := by
  have hhead : ¬ (deref (x :: rest) = 110 ∨ deref (x :: rest) = 78) := by
    rcases hx with rfl | rfl <;> simp [deref]
  have hhead2 : deref (x :: rest) = 120 ∨ deref (x :: rest) = 88 := hx
  simp only [fts5ConfigSkipLiteral, hhead, if_false, hhead2, if_true, List.tail_cons,
    hexRun_eq_dropWhile]
  by_cases h39 : deref rest = 39
  · have hlen : ((x :: rest).length - (rest.tail.dropWhile isHexDigit).length) % 2 =
        (rest.tail.takeWhile isHexDigit).length % 2 := by
      cases rest with
      | nil => exact absurd h39 (by decide)
      | cons c after =>
        have h1 := length_sub_dropWhile isHexDigit after
        have h2 := length_dropWhile_le isHexDigit after
        simp only [List.length_cons, List.tail_cons]
        omega
    simp only [h39, if_true, true_and, hlen]
  · simp [h39]

/-- C11, witnesses: "x'ab'" succeeds with the cursor at the end, "x'a'" fails. -/
theorem skipLiteral_blob_witness :
    (fts5ConfigSkipLiteral (120 :: bytes "'ab'") = Cursor.ptr [] ∧
      fts5ConfigSkipLiteral (120 :: bytes "'a'") = Cursor.null) ∧
    fts5ConfigSkipLiteral (88 :: bytes "'0F' rest") = Cursor.ptr (bytes " rest") :=
  ⟨⟨skipLiteral_blob 120 (bytes "'ab'") (Or.inl rfl),
    skipLiteral_blob 120 (bytes "'a'") (Or.inl rfl)⟩,
   skipLiteral_blob 88 (bytes "'0F' rest") (Or.inr rfl)⟩

/-- C13: for a byte `b` (0..255) the bareword test is true if and only if `b` has its
high bit set, or is an ASCII letter, an ASCII digit, the underscore or the byte 0x1A;
it is false for every other byte, among them the space and NUL. -/
theorem isBareword_iff (b : Nat) (hb : b < 256) :
    (sqlite3Fts5IsBareword b = true ↔
      (128 ≤ b ∨ (65 ≤ b ∧ b ≤ 90) ∨ (97 ≤ b ∧ b ≤ 122) ∨ (48 ≤ b ∧ b ≤ 57) ∨
        b = 95 ∨ b = 26)) ∧
    sqlite3Fts5IsBareword 32 = false ∧ sqlite3Fts5IsBareword 0 = false := by
  exact ⟨isBareword_table b hb, by decide, by decide⟩

/-- C13, witness: the byte 0x1A is a bareword byte. -/
theorem isBareword_iff_witness :
    (sqlite3Fts5IsBareword 26 = true ↔
      (128 ≤ 26 ∨ (65 ≤ 26 ∧ 26 ≤ 90) ∨ (97 ≤ 26 ∧ 26 ≤ 122) ∨ (48 ≤ 26 ∧ 26 ≤ 57) ∨
        26 = 95 ∨ 26 = 26)) ∧
    sqlite3Fts5IsBareword 32 = false ∧ sqlite3Fts5IsBareword 0 = false :=
  isBareword_iff 26 (by decide)

/-- C12, counterexample: on "+" the numeric branch of the literal scan consumes the
sign, finds no digit and still succeeds, with the cursor after the sign; likewise on
"-x" and "+.". Only an input on which no byte at all is consumed ("abc", ".", the empty
string) is rejected. -/
theorem skipLiteral_lone_sign :
    fts5ConfigSkipLiteral (bytes "+") = Cursor.ptr [] ∧
    fts5ConfigSkipLiteral (bytes "-x") = Cursor.ptr (bytes "x") ∧
    fts5ConfigSkipLiteral (bytes "+.") = Cursor.ptr (bytes ".") ∧
    fts5ConfigSkipLiteral (bytes "abc") = Cursor.null ∧
    fts5ConfigSkipLiteral (bytes ".") = Cursor.null ∧
    fts5ConfigSkipLiteral [] = Cursor.null := by
  decide

/-- C12, amended: on an input whose first byte is none of `n`, `N`, `x`, `X` and the
single quote, the literal scan fails if and only if it has consumed no byte at all: the
input starts neither with a sign, nor with a digit, nor with a point that is followed
by a digit. An input that begins with a sign is never rejected: when the sign is
followed neither by a digit nor by a point and a digit, the scan succeeds with the
cursor just after the sign. In general the scan returns the cursor just after the
sign, the digits and the fraction it has consumed. -/
theorem skipLiteral_number (pIn : List Nat)
    (h : deref pIn ≠ 110 ∧ deref pIn ≠ 78 ∧ deref pIn ≠ 120 ∧ deref pIn ≠ 88 ∧
      deref pIn ≠ 39) :
    fts5ConfigSkipLiteral pIn =
      (if numericLength pIn = 0 then Cursor.null
        else Cursor.ptr (pIn.drop (numericLength pIn))) ∧
    (fts5ConfigSkipLiteral pIn = Cursor.null ↔
      (deref pIn ≠ 43 ∧ deref pIn ≠ 45 ∧ fts5_isdigit (deref pIn) = false ∧
        ¬ (deref pIn = 46 ∧ fts5_isdigit (deref pIn.tail) = true))) ∧
    ((deref pIn = 43 ∨ deref pIn = 45) → fts5_isdigit (deref pIn.tail) = false →
      ¬ (deref pIn.tail = 46 ∧ fts5_isdigit (deref pIn.tail.tail) = true) →
      fts5ConfigSkipLiteral pIn = Cursor.ptr pIn.tail) := by
  have hclosed := skipLiteral_number_closed pIn h
  refine ⟨hclosed, numberBranch_null_iff pIn h, ?_⟩
  intro hsign hnd hnp
  obtain ⟨hlen, hdrop⟩ := numericLength_lone_sign pIn hsign hnd hnp
  rw [hclosed, hlen, hdrop]
  simp

/-- C12 amended, witnesses: "-x" is accepted with the cursor after the sign, "abc" is
rejected, and on "+1.5 x" the cursor is after the number. -/
theorem skipLiteral_number_witness :
    fts5ConfigSkipLiteral (bytes "-x") = Cursor.ptr (bytes "x") ∧
    (fts5ConfigSkipLiteral (bytes "abc") = Cursor.null ↔
      (deref (bytes "abc") ≠ 43 ∧ deref (bytes "abc") ≠ 45 ∧
        fts5_isdigit (deref (bytes "abc")) = false ∧
        ¬ (deref (bytes "abc") = 46 ∧ fts5_isdigit (deref (bytes "abc").tail) = true))) ∧
    fts5ConfigSkipLiteral (bytes "+1.5 x") =
      (if numericLength (bytes "+1.5 x") = 0 then Cursor.null
        else Cursor.ptr ((bytes "+1.5 x").drop (numericLength (bytes "+1.5 x")))) :=
  ⟨(skipLiteral_number (bytes "-x") (by decide)).2.2 (by decide) (by decide) (by decide),
   (skipLiteral_number (bytes "abc") (by decide)).2.1,
   (skipLiteral_number (bytes "+1.5 x") (by decide)).1⟩

/-! ## Further properties of the driver -/

set_option maxRecDepth 8000 in
/-- C14, the failing input: a call with 4 arguments. The error "Invalid amount of
arguments" is set, but the function does not return: the tokenizer named by the first
argument is looked up, constructed and run on the last argument, and the last result
that is set is the JSON array of its tokens. With no argument at all the function reads
`argv[-1]`. -/
theorem tokenizeSqlFunc_four_arguments :
    tokenizeSqlFunc (some wholeInputApi)
        [some (bytes "unicode61"), none, some (bytes "x"), some (bytes "hello")] =
      some (Ran.done
        [ResultCall.error ErrMsg.invalidArguments, ResultCall.sqlText 1,
          ResultCall.jsonArray [some (some (bytes "hello"))]]
        [ApiCall.xFindTokenizer (some (bytes "unicode61")), ApiCall.xCreate [] 0,
          ApiCall.xTokenize (some (bytes "hello")) 5, ApiCall.xDelete]) ∧
    tokenizeSqlFunc (some wholeInputApi) [] = some Ran.undefined := by
  decide

/-- C15: when the scan of the configuration string fails, `createTokenizer` returns an
error with the message "parse error in tokenize directive" and has called neither the
lookup nor the constructor, and `tokenizeSqlFunc` runs no tokenization and reports
that error. -/
theorem failed_parse_is_atomic (api : fts5_api) (tokenizerName : Option (List Nat))
    (z : List Nat) (a c : SqlValue)
    (hfail : parseConfig (some z) = some ParseResult.parseError) :
    createTokenizer (some api) tokenizerName (some z) =
      some (Created.done false (some ErrMsg.parseError) [] none) ∧
    ErrMsg.parseError.format = "parse error in tokenize directive" ∧
    tokenizeSqlFunc (some api) [a, some z, c] =
      some (Ran.done [ResultCall.error ErrMsg.parseError] []) := by
  have hc : ∀ name, createTokenizer (some api) name (some z) =
      some (Created.done false (some ErrMsg.parseError) [] none) := by
    intro name
    simp only [createTokenizer, hfail]
  refine ⟨hc tokenizerName, rfl, ?_⟩
  have hparam : tokenizerParamOf [a, some z, c] = some z := rfl
  simp only [tokenizeSqlFunc, hparam, hc]
  rfl

/-- C15, witness: the configuration string "bad 'unterminated". -/
theorem failed_parse_is_atomic_witness :
    createTokenizer (some wholeInputApi) (some (bytes "unicode61"))
        (some (bytes "bad 'unterminated")) =
      some (Created.done false (some ErrMsg.parseError) [] none) ∧
    ErrMsg.parseError.format = "parse error in tokenize directive" ∧
    tokenizeSqlFunc (some wholeInputApi)
        [some (bytes "unicode61"), some (bytes "bad 'unterminated"), some (bytes "hello")] =
      some (Ran.done [ResultCall.error ErrMsg.parseError] []) :=
  failed_parse_is_atomic wholeInputApi (some (bytes "unicode61")) (bytes "bad 'unterminated")
    (some (bytes "unicode61")) (some (bytes "hello")) (by decide)

set_option maxRecDepth 8000 in
/-- C16: when the tokenizer emits no token, the list is still the zeroed head node, the
collection loop leaves at once with `tokenIndex = 0`, and the token count is 1: the
sequence handed to the renderer has exactly one entry, and that entry is null. -/
theorem accumulate_no_token :
    deliverTokens createToken [] = Token.last none ∧
    (accumulate []).tokenCount = 1 ∧
    boundEntries (accumulate []) = [some none] ∧
    tokenizeSqlFunc (some wholeInputApi) [some []] =
      some (Ran.done [ResultCall.sqlText 1, ResultCall.jsonArray [some none]]
        [ApiCall.xFindTokenizer (some (bytes "unicode61")), ApiCall.xCreate [] 0,
          ApiCall.xTokenize (some []) 0, ApiCall.xDelete]) := by
  decide

/-- C17, the failing input: on a single quote that is directly followed by the
terminator the literal scan steps over the terminator and reads the byte behind it.
When the buffer goes on behind the NUL (here with "a'"), the scan of the string "'"
returns a cursor four bytes in, past that terminator. -/
theorem skipLiteral_reads_past_terminator :
    fts5ConfigSkipLiteral (bytes "'") = Cursor.overrun ∧
    quotedRun [] = Cursor.overrun ∧
    fts5ConfigSkipLiteral (bytes "'" ++ 0 :: bytes "a'") = Cursor.ptr [] := by
  decide

/-! ## Further properties of the configuration-string parse -/

/-- C19: a non-empty configuration string that consists of spaces only fails with the
parse error; no non-empty configuration string parses to the empty argument list;
spaces before a first and after a last argument are accepted. -/
theorem parse_only_spaces (k lead trail n : Nat) (w z : List Nat) (hk : 0 < k)
    (hz : NulFree z) (hzne : z ≠ []) (hw : w ≠ [])
    (hbw : ∀ b ∈ w, sqlite3Fts5IsBareword b = true) :
    parseConfig (some (List.replicate k 32)) = some ParseResult.parseError ∧
    parseConfig (some z) ≠ some (ParseResult.ok n []) ∧
    parseConfig (some (List.replicate lead 32 ++ (w ++ List.replicate trail 32))) =
      some (ParseResult.ok 1 [Argument.mk w w]) := by
  refine ⟨?_, ?_, ?_⟩
  · obtain ⟨j, rfl⟩ : ∃ j, k = j + 1 := ⟨k - 1, by omega⟩
    have hp0 : deref (List.replicate (j + 1) 32) ≠ 0 := by
      simp [List.replicate_succ, deref]
    have hws : fts5ConfigSkipWhitespace (List.replicate (j + 1) 32) = [] := by
      have := skipWhitespace_spaces (j + 1) []
      simpa [fts5ConfigSkipWhitespace] using this
    have hsc : scanArgument [] = Cursor.null := by decide
    simp only [parseConfig, parseLoop, hp0, if_false, hws, hsc]
  · intro h
    obtain ⟨more, hargs, -, hne⟩ := parseLoop_ok_extends _ z 0 [] n [] h
    have hmore : more = [] := by simpa using hargs.symm
    exact hne (deref_ne_zero_of_mem hz hzne) hmore
  · have hwf : WellRendered [Rendering.mk w false trail] := by
      refine ⟨fun b hb => (bareword_byte (hbw b hb)).1, fun _ => ⟨hw, hbw⟩,
        fun h => absurd rfl h, trivial⟩
    have hstep := parseLoop_rendered_step
      (List.replicate lead 32 ++ (w ++ List.replicate trail 32)).length lead
      (Rendering.mk w false trail) [] 0 [] hwf
    have hrender : renderArgs [Rendering.mk w false trail] = w ++ List.replicate trail 32 := by
      simp [renderArgs, renderArg]
    rw [hrender] at hstep
    have hpos : 0 < (List.replicate lead 32 ++ (w ++ List.replicate trail 32)).length := by
      have := List.length_pos.mpr hw
      simp only [List.length_append, List.length_replicate]
      omega
    obtain ⟨f, hf⟩ : ∃ f, (List.replicate lead 32 ++ (w ++ List.replicate trail 32)).length
        = f + 1 :=
      ⟨(List.replicate lead 32 ++ (w ++ List.replicate trail 32)).length - 1, by omega⟩
    simp only [parseConfig]
    rw [hstep, hf]
    simp [parseLoop, renderArgs, deref, expectedArg, renderArg]

/-- C19, witness: two spaces fail, " " is not parsed to the empty list, " ab  " gives
the one argument "ab". -/
theorem parse_only_spaces_witness :
    parseConfig (some (List.replicate 2 32)) = some ParseResult.parseError ∧
    parseConfig (some (bytes " ")) ≠ some (ParseResult.ok 0 []) ∧
    parseConfig (some (List.replicate 1 32 ++ (bytes "ab" ++ List.replicate 2 32))) =
      some (ParseResult.ok 1 [Argument.mk (bytes "ab") (bytes "ab")]) :=
  parse_only_spaces 2 1 2 0 (bytes "ab") (bytes " ") (by decide) (by decide) (by decide)
    (by decide) (by decide)

/-- C20: the parse calls the literal scan only on a single quote, so for every
configuration string it gives the same outcome as the parse whose literal scanner
recognises only single-quoted strings. So "x'ab'" parses to "x" and "ab", "null" to
the bareword "null", and "-1" and "1.5" are parse errors. -/
theorem parse_eq_quotedOnly (tokenizeParam : Option (List Nat)) :
    parseConfig tokenizeParam = parseConfigQuotedOnly tokenizeParam ∧
    parseConfig (some (bytes "x'ab'")) =
      some (ParseResult.ok 2 [Argument.mk (bytes "x") (bytes "x"),
        Argument.mk (bytes "'ab'") (bytes "ab")]) ∧
    parseConfig (some (bytes "null")) =
      some (ParseResult.ok 1 [Argument.mk (bytes "null") (bytes "null")]) ∧
    parseConfig (some (bytes "-1")) = some ParseResult.parseError ∧
    parseConfig (some (bytes "1.5")) = some ParseResult.parseError := by
  refine ⟨?_, by decide, by decide, by decide, by decide⟩
  cases tokenizeParam with
  | none => rfl
  | some z => exact parseLoop_eq_quotedOnly _ z 0 []

/-- C18, the failing input: the configuration string "'" (length 1), a lone single
quote. The literal scan reads past its terminator; when the buffer goes on behind the
NUL with "aaaaaaaa'", the one round of the loop copies 11 bytes (and their terminator)
to the scratch buffer, which was allocated with 2 * (1 + 1) = 4 bytes. -/
theorem parse_writes_past_scratch :
    parseConfig (some (bytes "'")) = some ParseResult.overrun ∧
    strlen (bytes "'" ++ 0 :: bytes "aaaaaaaa'") = 1 ∧
    configWrites (bytes "'" ++ 0 :: bytes "aaaaaaaa'") = [ArgWrite.mk 0 0 11] ∧
    (ArgWrite.mk 0 0 11).inBounds (strlen (bytes "'" ++ 0 :: bytes "aaaaaaaa'")) = false := by
  decide

end Fts5Expose
